import Mathlib

set_option linter.unusedVariables false
set_option maxRecDepth 2000

/-!
# Verification of the RTMP ingest core (`src/unnamed/part_003`)

Shallow embedding of the RTMP connection code: handshake engine, chunk-stream
reassembler, AMF0 codec, and command dispatcher, together with proofs and
refutations of the frozen claims about this code.

Modelling conventions:
* A byte buffer is a `List Nat`; writers truncate each byte to 8 bits
  (JS `Buffer` cell-assignment semantics).
* JS numbers holding protocol integers (timestamps, lengths, counters) are
  `Nat` (they stay far below 2^53, where doubles are exact).
* An AMF0 Number / transaction id is carried as the 64-bit pattern of the
  IEEE-754 double (`writeDoubleBE`/`readDoubleBE` move exactly these 8 bytes),
  so no floating-point arithmetic is modelled; the few numeric literals the
  dispatcher encodes appear as their IEEE-754 bit patterns.
* JS strings are carried as their UTF-8 byte lists.
* Side effects (socket writes, pipeline calls, error logs) are collected in an
  effect trace; every completed message is additionally recorded in a message
  trace together with the timestamp the reassembler associated with it.
-/

namespace RTMPCore

/-! ## Byte-level helpers -/

def be16 (n : Nat) : List Nat := [n / 256 % 256, n % 256]

def be24 (n : Nat) : List Nat := [n / 65536 % 256, n / 256 % 256, n % 256]

def be32 (n : Nat) : List Nat :=
  [n / 16777216 % 256, n / 65536 % 256, n / 256 % 256, n % 256]

def be64 (n : Nat) : List Nat := be32 (n / 4294967296) ++ be32 n

def le32 (n : Nat) : List Nat :=
  [n % 256, n / 256 % 256, n / 65536 % 256, n / 16777216 % 256]

/-- `buffer.readUInt16BE(o)` (bounds are checked separately where JS throws). -/
def read16BE (b : List Nat) (o : Nat) : Nat := b.getD o 0 * 256 + b.getD (o+1) 0

/-- `buffer.readUIntBE(o, 3)`. -/
def read24BE (b : List Nat) (o : Nat) : Nat :=
  b.getD o 0 * 65536 + b.getD (o+1) 0 * 256 + b.getD (o+2) 0

/-- `buffer.readUInt32BE(o)`. -/
def read32BE (b : List Nat) (o : Nat) : Nat :=
  b.getD o 0 * 16777216 + b.getD (o+1) 0 * 65536 + b.getD (o+2) 0 * 256 + b.getD (o+3) 0

/-- `buffer.readDoubleBE(o)` read as the raw 64-bit pattern. -/
def read64BE (b : List Nat) (o : Nat) : Nat := read32BE b o * 4294967296 + read32BE b (o+4)

/-- `buffer.readUInt32LE(o)`. -/
def read32LE (b : List Nat) (o : Nat) : Nat :=
  b.getD o 0 + b.getD (o+1) 0 * 256 + b.getD (o+2) 0 * 65536 + b.getD (o+3) 0 * 16777216

/-- `buffer.toString("utf8", a, b)` as a byte slice (JS clamps both ends). -/
def strSlice (l : List Nat) (a b : Nat) : List Nat := (l.take b).drop a

/-- UTF-8 bytes of an ASCII string literal. -/
def ascii (s : String) : List Nat := s.data.map Char.toNat

/-- IEEE-754 bit pattern of the double `1.0` (what `writeDoubleBE(1)` emits). -/
def f64one : Nat := 0x3FF0000000000000

/-- IEEE-754 bit pattern of the double `31.0`. -/
def f64thirtyone : Nat := 0x403F000000000000

/-! ## AMF0 values and codec (source lines 837-925 and 992-1052) -/

/-- The closed union of values the AMF0 codec of this program handles.
`num` carries the IEEE-754 bit pattern of the double. -/
inductive AMF0Value where
  | str (bytes : List Nat)
  | num (bits : Nat)
  | boolean (b : Bool)
  | nullV
  | object (props : List (List Nat × AMF0Value))

open AMF0Value

/-- One property of an object, as `encodeAMF0` writes it (source 1024-1045):
the key is always written; a value that is not a string/number/boolean is
silently skipped (JS `typeof` dispatch falls through). -/
def encProp (kv : List Nat × AMF0Value) : List Nat :=
  be16 kv.1.length ++ kv.1 ++
    (match kv.2 with
     | .str s => 0x02 :: (be16 s.length ++ s)
     | .num n => 0x00 :: be64 n
     | .boolean b => [0x01, if b then 1 else 0]
     | _ => [])

/-- One argument, as `encodeAMF0` writes it (source 1010-1049). A top-level
string argument matches none of the `typeof` branches and is skipped. -/
def encArg : AMF0Value → List Nat
  | .nullV => [0x05]
  | .num n => 0x00 :: be64 n
  | .boolean b => [0x01, if b then 1 else 0]
  | .object props => 0x03 :: ((props.map encProp).flatten ++ [0x00, 0x00, 0x09])
  | .str _ => []

/-- `RTMPConnection.encodeAMF0` (source 992-1052). -/
def encodeAMF0 (command : List Nat) (transactionId : Nat) (args : List AMF0Value) : List Nat :=
  0x02 :: (be16 command.length ++ command) ++ (0x00 :: be64 transactionId) ++
    (args.map encArg).flatten

/-- JS `obj[k] = v`: overwrite in place when the key exists, else append. -/
def objInsert (props : List (List Nat × AMF0Value)) (k : List Nat) (v : AMF0Value) :
    List (List Nat × AMF0Value) :=
  if props.any (fun p => p.1 == k) then
    props.map (fun p => if p.1 == k then (k, v) else p)
  else props ++ [(k, v)]

/-- The object-property loop of `parseAMF0` (source 877-913), fuel-indexed.
Each iteration advances the offset by at least one, so fuel `b.length + 1`
(what the callers pass) can never run out; `.error` marks the positions where
the JS code would throw (`readDoubleBE` past the end). -/
def parseObjProps (b : List Nat) :
    Nat → Nat → List (List Nat × AMF0Value) → Except Unit (List (List Nat × AMF0Value) × Nat)
  | 0, _, _ => .error ()
  | fuel+1, o, acc =>
    if o + 2 < b.length then
      if b.getD o 0 == 0 && b.getD (o+1) 0 == 0 && b.getD (o+2) 0 == 9 then
        .ok (acc, o + 3)
      else
        let propLen := read16BE b o
        let propName := strSlice b (o+2) (o+2+propLen)
        let o2 := o + 2 + propLen
        match b.get? o2 with
        | some 2 =>
          if o2 + 3 > b.length then .error () else
            let valLen := read16BE b (o2+1)
            parseObjProps b fuel (o2 + 3 + valLen)
              (objInsert acc propName (.str (strSlice b (o2+3) (o2+3+valLen))))
        | some 0 =>
          if o2 + 9 > b.length then .error () else
            parseObjProps b fuel (o2 + 9) (objInsert acc propName (.num (read64BE b (o2+1))))
        | some 1 =>
          -- `buffer[offset+1] !== 0`: an out-of-range read is `undefined`, hence `true`
          parseObjProps b fuel (o2 + 2)
            (objInsert acc propName (.boolean (match b.get? (o2+1) with
              | some 0 => false
              | _ => true)))
        | _ => parseObjProps b fuel (o2 + 1) acc
    else .ok (acc, o)

/-- The argument loop of `parseAMF0` (source 862-922), fuel-indexed. An
unrecognised top-level marker (in particular `0x01`, Boolean) breaks the loop
and returns the arguments collected so far. -/
def parseArgs (b : List Nat) : Nat → Nat → List AMF0Value → Except Unit (List AMF0Value)
  | 0, _, _ => .error ()
  | fuel+1, o, acc =>
    if o + 1 < b.length then
      let t := b.getD o 0
      if t == 2 then
        if o + 3 > b.length then .error () else
          let len := read16BE b (o+1)
          parseArgs b fuel (o + 3 + len) (acc ++ [.str (strSlice b (o+3) (o+3+len))])
      else if t == 5 then parseArgs b fuel (o + 1) (acc ++ [.nullV])
      else if t == 3 then
        match parseObjProps b (b.length + 1) (o+1) [] with
        | .error e => .error e
        | .ok (props, o') => parseArgs b fuel o' (acc ++ [.object props])
      else if t == 0 then
        if o + 9 > b.length then .error () else
          parseArgs b fuel (o + 9) (acc ++ [.num (read64BE b (o+1))])
      else .ok acc
    else .ok acc

/-- `RTMPConnection.parseAMF0` (source 837-925). `.error ()` stands for the
thrown exceptions (wrong leading markers, reads past the end of the buffer). -/
def parseAMF0 (b : List Nat) : Except Unit (List Nat × Nat × List AMF0Value) :=
  match b.get? 0 with
  | some 2 =>
    if 3 > b.length then .error () else
      let cmdLen := read16BE b 1
      let command := strSlice b 3 (3 + cmdLen)
      let o := 3 + cmdLen
      match b.get? o with
      | some 0 =>
        if o + 9 > b.length then .error () else
          let transactionId := read64BE b (o+1)
          match parseArgs b (b.length + 1) (o + 9) [] with
          | .error e => .error e
          | .ok args => .ok (command, transactionId, args)
      | _ => .error ()
  | _ => .error ()

/-! ## Connection state (fields of class `RTMPConnection`, source 460-493)

The JS class fields are grouped into two records: `Core` (everything the
reassembler/dispatcher decisions read and write) and `AckSt` (the two
acknowledgement counters `bytesReceived` / `lastAckSent`, which no parsing
decision depends on). `Conn` pairs them; this grouping is presentational
only, every field is a field of the JS class. -/

/-- One entry of `incompleteMessages` (source 473-483). -/
structure IncompleteMsg where
  buffer : List Nat
  bytesReceived : Nat
  totalLength : Nat
  messageType : Nat
  timestamp : Nat
  streamId : Nat
deriving Repr, DecidableEq

/-- `enum HandshakeState` (source 369-374). -/
inductive HSState where
  | uninitialized
  | versionSent
  | ackSent
  | handshakeDone
deriving Repr, DecidableEq

structure Core where
  buffer : List Nat
  hs : HSState
  chunkSize : Nat
  peerChunkSize : Nat
  windowAckSize : Nat
  peerBandwidth : Nat
  streamKey : Option AMF0Value
  incompleteMessages : List (Nat × IncompleteMsg)
  lastMessageLength : List (Nat × Nat)
  lastMessageType : List (Nat × Nat)
  lastMessageStreamId : List (Nat × Nat)
  lastTimestamp : List (Nat × Nat)

structure AckSt where
  bytesReceived : Nat
  lastAckSent : Nat
deriving Repr, DecidableEq

structure Conn where
  core : Core
  ack : AckSt

/-- Observable side effects: socket writes, closing the socket, diagnostic
log lines (modelled only where a claim mentions logging), and the three
`StreamProcessor` collaborator calls the connection makes. Note that
`processAudioBuffer`/`processVideoBuffer` (source 407-429) receive only the
buffer: the collaborator interface carries no timestamp. -/
inductive Eff where
  | sockWrite (bytes : List Nat)
  | sockEnd
  | logE
  | pipelineInit (key : AMF0Value)
  | pushAudio (buf : List Nat)
  | pushVideo (buf : List Nat)

/-- A completed (fully reassembled) message, as handed to
`handleCompleteMessage`, together with the timestamp the reassembler
associated with it at completion (the local `timestamp` for a single-chunk
message, `incomplete.timestamp` for a promoted one). -/
structure Msg where
  messageType : Nat
  payload : List Nat
  csid : Nat
  streamId : Nat
  timestamp : Nat
deriving Repr, DecidableEq

/-! ### The per-csid maps (`Map<number, …>`) as association lists -/

/-- `m.get(k) || 0`. -/
def mapGetD (m : List (Nat × Nat)) (k : Nat) : Nat := (m.lookup k).getD 0

/-- `m.set(k, v)`. -/
def mapSet {α : Type} (m : List (Nat × α)) (k : Nat) (v : α) : List (Nat × α) :=
  (k, v) :: m.filter (fun p => !(p.1 == k))

/-- `m.delete(k)`. -/
def mapDel {α : Type} (m : List (Nat × α)) (k : Nat) : List (Nat × α) :=
  m.filter (fun p => !(p.1 == k))

/-! ## Outgoing frames (source 592-606, 974-990) -/

/-- `sendControlMessage` (source 592-606): fixed 12-byte format-0 header. -/
def controlFrame (csid messageType : Nat) (payload : List Nat) : List Nat :=
  (csid % 64) :: ([0, 0, 0] ++ be24 payload.length ++ [messageType % 256] ++ [0, 0, 0, 0]) ++
    payload

/-- `sendCommandResponse` (source 974-990) builds the same 12-byte header with
message type 20 (`MSG_AMF0_CMD`) around an `encodeAMF0` payload. -/
def cmdFrame (csid : Nat) (command : List Nat) (transactionId : Nat)
    (args : List AMF0Value) : List Nat :=
  controlFrame csid 20 (encodeAMF0 command transactionId args)

/-- `sendAck` (source 786-790). -/
def ackFrame (bytes : Nat) : List Nat := controlFrame 2 3 (be32 bytes)

/-! ## Command dispatcher (source 792-972) -/

/-- Server identity and status objects of `handleConnect` (source 937-952). -/
def connectResultArgs : List AMF0Value :=
  [.object [(ascii "fmsVer", .str (ascii "FMS/3,5,7,7009")),
            (ascii "capabilities", .num f64thirtyone),
            (ascii "mode", .num f64one)],
   .object [(ascii "level", .str (ascii "status")),
            (ascii "code", .str (ascii "NetConnection.Connect.Success")),
            (ascii "description", .str (ascii "Connection succeeded")),
            (ascii "objectEncoding", .num 0)]]

/-- `handleConnect` (source 927-955): a Stream-Begin user-control message for
stream id 0, then the `_result` reply. -/
def handleConnect (c : Core) (csid transactionId : Nat) : Core × List Eff :=
  (c, [.sockWrite (controlFrame 2 4 [0, 0, 0, 0, 0, 0]),
       .sockWrite (cmdFrame csid (ascii "_result") transactionId connectResultArgs)])

/-- JS truthiness on the values an argument list can hold (`args[0] || …`):
`null`, the empty string, `false`, and the doubles ±0 / NaN are falsy. -/
def jsFalsy : AMF0Value → Bool
  | .nullV => true
  | .str s => s.isEmpty
  | .num bits =>
      bits == 0 || bits == 0x8000000000000000 ||
        (bits / 2 ^ 52 % 2 ^ 11 == 0x7FF && bits % 2 ^ 52 != 0)
  | .boolean b => !b
  | .object _ => false

/-- `handlePublish` (source 957-972): record the stream key, signal the
`StreamProcessor`, reply `onStatus` with the publish-start status object. -/
def handlePublish (c : Core) (csid : Nat) (args : List AMF0Value) : Core × List Eff :=
  let streamKey :=
    match args.head? with
    | some v => if jsFalsy v then .str (ascii "default") else v
    | none => .str (ascii "default")
  ({c with streamKey := some streamKey},
   [.pipelineInit streamKey,
    .sockWrite (cmdFrame csid (ascii "onStatus") 0
      [.nullV,
       .object [(ascii "level", .str (ascii "status")),
                (ascii "code", .str (ascii "NetStream.Publish.Start")),
                (ascii "description", .str (ascii "Stream is now published")),
                (ascii "details", streamKey)]])])

/-- `handleCommand` (source 792-835). The `try/catch` becomes a match on the
decoder's result: a parse error is logged and the message is dropped. -/
def handleCommand (c : Core) (payload : List Nat) (csid streamId : Nat)
    (isAMF3 : Bool) : Core × List Eff :=
  let off := if isAMF3 && payload.get? 0 == some 0 then 1 else 0
  match parseAMF0 (payload.drop off) with
  | .error _ => (c, [.logE])
  | .ok (command, transactionId, args) =>
    if command == ascii "connect" then handleConnect c csid transactionId
    else if command == ascii "releaseStream" then
      (c, [.sockWrite (cmdFrame csid (ascii "_result") transactionId [.nullV, .nullV])])
    else if command == ascii "FCPublish" then
      (c, [.sockWrite (cmdFrame csid (ascii "_result") transactionId [.nullV, .nullV])])
    else if command == ascii "createStream" then
      (c, [.sockWrite (cmdFrame csid (ascii "_result") transactionId [.nullV, .num f64one])])
    else if command == ascii "publish" then handlePublish c csid args
    else (c, [.logE])

/-- `handleCompleteMessage` (source 733-784). Audio/Video payloads are pushed
to the `StreamProcessor` whole; types 5/6 only log; unknown types only log. -/
def handleCompleteMessage (c : Core) (messageType : Nat) (payload : List Nat)
    (csid streamId : Nat) : Core × List Eff :=
  if messageType == 1 then
    if 4 ≤ payload.length then ({c with peerChunkSize := read32BE payload 0 % 2 ^ 31}, [])
    else (c, [])
  else if messageType == 5 then (c, [])
  else if messageType == 6 then (c, [])
  else if messageType == 20 then handleCommand c payload csid streamId false
  else if messageType == 17 then handleCommand c payload csid streamId true
  else if messageType == 8 then (c, [.pushAudio payload])
  else if messageType == 9 then (c, [.pushVideo payload])
  else (c, [])

/-! ## Chunk-stream reassembler (source 608-731) -/

/-- The values the loop body derives from the basic + message header
(source 612-680). -/
structure HeaderInfo where
  headerSize : Nat
  csid : Nat
  fmt : Nat
  timestamp : Nat
  messageLength : Nat
  messageType : Nat
  streamId : Nat
deriving Repr, DecidableEq

/-- Basic- and message-header parsing of one loop pass (source 612-680),
returning `none` where the code `break`s for lack of bytes (and on the
falsy-byte guard `if (!basicHeader) break`). -/
def parseHeader (c : Core) : Option HeaderInfo :=
  let b := c.buffer
  match b.head? with
  | none => none
  | some basicHeader =>
    if basicHeader == 0 then none
    else
      let fmt := basicHeader / 64 % 4
      let csid0 := basicHeader % 64
      let esc : Option (Nat × Nat) :=
        if csid0 == 0 then
          if b.length < 2 then none else some (b.getD 1 0 + 64, 2)
        else if csid0 == 1 then
          if b.length < 3 then none else some (b.getD 2 0 * 256 + b.getD 1 0 + 64, 3)
        else some (csid0, 1)
      match esc with
      | none => none
      | some (csid, offset) =>
        let timestamp := mapGetD c.lastTimestamp csid
        let messageLength := mapGetD c.lastMessageLength csid
        let messageType := mapGetD c.lastMessageType csid
        let streamId := mapGetD c.lastMessageStreamId csid
        if fmt == 0 then
          if b.length < offset + 11 then none
          else some ⟨offset + 11, csid, 0, read24BE b offset, read24BE b (offset+3),
                     b.getD (offset+6) 0, read32LE b (offset+7)⟩
        else if fmt == 1 then
          if b.length < offset + 7 then none
          else some ⟨offset + 7, csid, 1, timestamp + read24BE b offset,
                     read24BE b (offset+3), b.getD (offset+6) 0, streamId⟩
        else if fmt == 2 then
          if b.length < offset + 3 then none
          else some ⟨offset + 3, csid, 2, timestamp + read24BE b offset,
                     messageLength, messageType, streamId⟩
        else some ⟨offset, csid, 3, timestamp, messageLength, messageType, streamId⟩

/-- The cache writes each format performs (source 654-657, 670-672, 679). -/
def applyCache (c : Core) (h : HeaderInfo) : Core :=
  if h.fmt == 0 then
    {c with lastTimestamp := mapSet c.lastTimestamp h.csid h.timestamp,
            lastMessageLength := mapSet c.lastMessageLength h.csid h.messageLength,
            lastMessageType := mapSet c.lastMessageType h.csid h.messageType,
            lastMessageStreamId := mapSet c.lastMessageStreamId h.csid h.streamId}
  else if h.fmt == 1 then
    {c with lastTimestamp := mapSet c.lastTimestamp h.csid h.timestamp,
            lastMessageLength := mapSet c.lastMessageLength h.csid h.messageLength,
            lastMessageType := mapSet c.lastMessageType h.csid h.messageType}
  else if h.fmt == 2 then
    {c with lastTimestamp := mapSet c.lastTimestamp h.csid h.timestamp}
  else c

/-- Result of one pass of the `while` body: `halt` is a `break` (the state may
still carry the cache writes of a fully-parsed header whose payload has not
arrived), `cont` consumed one chunk. -/
inductive CoreRes where
  | halt (c : Core)
  | cont (c : Core) (msgs : List Msg) (effs : List Eff)

/-- One pass of the `processRTMPMessages` loop body without the
acknowledgement bookkeeping (source 612-722). -/
def coreStep (c : Core) : CoreRes :=
  match parseHeader c with
  | none => .halt c
  | some h =>
    let c1 := applyCache c h
    let incomplete := c1.incompleteMessages.lookup h.csid
    let remainingBytes :=
      match incomplete with
      | some im => im.totalLength - im.bytesReceived
      | none => h.messageLength
    let bytesToRead := min remainingBytes c1.peerChunkSize
    if c1.buffer.length < h.headerSize + bytesToRead then .halt c1
    else
      let chunkData := (c1.buffer.drop h.headerSize).take bytesToRead
      let c2 := {c1 with buffer := c1.buffer.drop (h.headerSize + bytesToRead)}
      match incomplete with
      | none =>
        if h.messageLength ≤ bytesToRead then
          let r := handleCompleteMessage c2 h.messageType chunkData h.csid h.streamId
          .cont r.1 [⟨h.messageType, chunkData, h.csid, h.streamId, h.timestamp⟩] r.2
        else
          let im0 : IncompleteMsg :=
            ⟨chunkData, bytesToRead, h.messageLength, h.messageType, h.timestamp, h.streamId⟩
          .cont {c2 with incompleteMessages := mapSet c2.incompleteMessages h.csid im0} [] []
      | some im =>
        let im' : IncompleteMsg :=
          {im with buffer := im.buffer ++ chunkData,
                   bytesReceived := im.bytesReceived + bytesToRead}
        let c3 := {c2 with incompleteMessages := mapSet c2.incompleteMessages h.csid im'}
        if im'.totalLength ≤ im'.bytesReceived then
          let r := handleCompleteMessage c3 im.messageType im'.buffer h.csid im.streamId
          .cont {r.1 with incompleteMessages := mapDel r.1.incompleteMessages h.csid}
            [⟨im.messageType, im'.buffer, h.csid, im.streamId, im.timestamp⟩] r.2
        else .cont c3 [] []

/-- The acknowledgement bookkeeping of one pass (source 724-727). -/
def ackCheck (a : AckSt) (windowAckSize : Nat) : AckSt × List Eff :=
  if windowAckSize ≤ a.bytesReceived - a.lastAckSent then
    ({a with lastAckSent := a.bytesReceived}, [.sockWrite (ackFrame a.bytesReceived)])
  else (a, [])

inductive StepRes where
  | halt (s : Conn)
  | cont (s : Conn) (msgs : List Msg) (effs : List Eff)

/-- One full pass of the loop body: chunk handling, then the ack check. -/
def rtmpStep (s : Conn) : StepRes :=
  match coreStep s.core with
  | .halt c => .halt ⟨c, s.ack⟩
  | .cont c msgs effs =>
    let r := ackCheck s.ack c.windowAckSize
    .cont ⟨c, r.1⟩ msgs (effs ++ r.2)

/-- The `while (this.buffer.length > 0)` loop of `processRTMPMessages`
(source 608-731), fuel-indexed; includes the defensive zero-progress guard
(source 729). Each consumed chunk removes at least one byte, so fuel
`buffer.length + 1` never runs out. -/
def rtmpLoop : Nat → Conn → Conn × List Msg × List Eff
  | 0, s => (s, [], [])
  | fuel+1, s =>
    if s.core.buffer.isEmpty then (s, [], [])
    else
      let startLen := s.core.buffer.length
      match rtmpStep s with
      | .halt s' => (s', [], [])
      | .cont s' msgs effs =>
        if s'.core.buffer.length == startLen then (s', msgs, effs)
        else
          let r := rtmpLoop fuel s'
          (r.1, msgs ++ r.2.1, effs ++ r.2.2)

def processRTMPMessages (s : Conn) : Conn × List Msg × List Eff :=
  rtmpLoop (s.core.buffer.length + 1) s

/-! ## Handshake engine and data entry point (source 495-606) -/

/-- `sendServerConfig` (source 564-570): Set-Chunk-Size 4096 (also updating
our own chunk size), Window-Ack-Size, Set-Peer-Bandwidth with limit type 2. -/
def sendServerConfig (c : Core) : Core × List Eff :=
  ({c with chunkSize := 4096},
   [.sockWrite (controlFrame 2 1 (be32 4096)),
    .sockWrite (controlFrame 2 5 (be32 c.windowAckSize)),
    .sockWrite (controlFrame 2 6 (be32 c.peerBandwidth ++ [2]))])

/-- The S1 block (source 530-535): 4-byte big-endian timestamp, 4 zero bytes,
1528 pseudorandom bytes. The environment's timestamp and random bytes are
parameters; `Buffer.alloc` zero-fills, hence the padding. -/
def s1Block (ts : Nat) (rand : List Nat) : List Nat :=
  be32 ts ++ [0, 0, 0, 0] ++ (rand ++ List.replicate 1528 0).take 1528

/-- `processHandshake` (source 508-562). `ts`/`rand` model `Date.now()/1000`
and `Math.random()`. -/
def processHandshake (ts : Nat) (rand : List Nat) (s : Conn) : Conn × List Msg × List Eff :=
  match s.core.hs with
  | .uninitialized =>
    if 1537 ≤ s.core.buffer.length then
      if s.core.buffer.getD 0 0 == 3 then
        let c1 := (s.core.buffer.drop 1).take 1536
        (⟨{s.core with buffer := s.core.buffer.drop 1537, hs := .ackSent}, s.ack⟩, [],
         [.sockWrite (3 :: (s1Block ts rand ++ c1))])
      else (s, [], [.logE, .sockEnd])
    else (s, [], [])
  | .ackSent =>
    if 1536 ≤ s.core.buffer.length then
      let c := {s.core with buffer := s.core.buffer.drop 1536, hs := .handshakeDone}
      let r := sendServerConfig c
      let s2 : Conn := ⟨r.1, s.ack⟩
      if s2.core.buffer.isEmpty then (s2, [], r.2)
      else
        let r2 := processRTMPMessages s2
        (r2.1, r2.2.1, r.2 ++ r2.2.2)
    else (s, [], [])
  | _ => (s, [], [])

/-- `handleData` (source 495-506): append the delivery, bump the cumulative
byte counter, then hand to the handshake engine or the reassembler. -/
def handleData (ts : Nat) (rand : List Nat) (s : Conn) (data : List Nat) :
    Conn × List Msg × List Eff :=
  let s1 : Conn := ⟨{s.core with buffer := s.core.buffer ++ data},
                    {s.ack with bytesReceived := s.ack.bytesReceived + data.length}⟩
  if s1.core.hs == .handshakeDone then processRTMPMessages s1
  else processHandshake ts rand s1

/-- Sequential deliveries to one connection (the `data:` socket events). -/
def feedAll (ts : Nat) (rand : List Nat) (s : Conn) : List (List Nat) → Conn × List Msg × List Eff
  | [] => (s, [], [])
  | d :: rest =>
    let r1 := handleData ts rand s d
    let r2 := feedAll ts rand r1.1 rest
    (r2.1, r1.2.1 ++ r2.2.1, r1.2.2 ++ r2.2.2)

/-- The field values a fresh `RTMPConnection` starts with (source 460-493). -/
def initCore : Core :=
  ⟨[], .uninitialized, 128, 128, 2500000, 2500000, none, [], [], [], [], []⟩

def initConn : Conn := ⟨initCore, ⟨0, 0⟩⟩

/-! ## Helper lemmas about the handshake engine and loop frame facts -/

theorem s1Block_length (ts : Nat) (rand : List Nat) : (s1Block ts rand).length = 1536 := by
  rw [s1Block, List.length_append, List.length_append, List.length_take,
      List.length_append, List.length_replicate]
  simp [be32]

theorem processRTMP_nil (s : Conn) (h : s.core.buffer = []) :
    processRTMPMessages s = (s, [], []) := by
  simp [processRTMPMessages, rtmpLoop, h]

theorem handleData_uninit (ts : Nat) (rand : List Nat) (s : Conn) (d : List Nat)
    (hhs : s.core.hs = .uninitialized)
    (hlen : 1537 ≤ (s.core.buffer ++ d).length)
    (hv : (s.core.buffer ++ d).getD 0 0 = 3) :
    handleData ts rand s d =
      (⟨{s.core with buffer := (s.core.buffer ++ d).drop 1537, hs := .ackSent},
        {s.ack with bytesReceived := s.ack.bytesReceived + d.length}⟩, [],
       [.sockWrite (3 :: (s1Block ts rand ++ ((s.core.buffer ++ d).drop 1).take 1536))]) := by
  obtain ⟨⟨buf, hs, cs, pcs, was, pbw, sk, im, ml, mt, msid, lts⟩, br, las⟩ := s
  simp only at hhs hlen hv
  subst hhs
  have hv3 : (buf ++ d)[0]?.getD 0 = 3 := by
    rw [← List.getD_eq_getElem?_getD]; exact hv
  simp only [handleData, processHandshake, hlen, hv3]
  simp
  exact hv3

theorem handleData_ackSent (ts : Nat) (rand : List Nat) (s : Conn) (d : List Nat)
    (hhs : s.core.hs = .ackSent)
    (hlen : 1536 ≤ (s.core.buffer ++ d).length) :
    handleData ts rand s d =
      ((processRTMPMessages ⟨{s.core with buffer := (s.core.buffer ++ d).drop 1536, hs := .handshakeDone, chunkSize := 4096}, {s.ack with bytesReceived := s.ack.bytesReceived + d.length}⟩).1,
       (processRTMPMessages ⟨{s.core with buffer := (s.core.buffer ++ d).drop 1536, hs := .handshakeDone, chunkSize := 4096}, {s.ack with bytesReceived := s.ack.bytesReceived + d.length}⟩).2.1,
       [Eff.sockWrite (controlFrame 2 1 (be32 4096)),
        Eff.sockWrite (controlFrame 2 5 (be32 s.core.windowAckSize)),
        Eff.sockWrite (controlFrame 2 6 (be32 s.core.peerBandwidth ++ [2]))] ++
         (processRTMPMessages ⟨{s.core with buffer := (s.core.buffer ++ d).drop 1536, hs := .handshakeDone, chunkSize := 4096}, {s.ack with bytesReceived := s.ack.bytesReceived + d.length}⟩).2.2) := by
  obtain ⟨⟨buf, hs, cs, pcs, was, pbw, sk, im, ml, mt, msid, lts⟩, br, las⟩ := s
  simp only at hhs hlen ⊢
  subst hhs
  simp only [handleData, processHandshake, hlen, sendServerConfig]
  by_cases hb : ((buf ++ d).drop 1536) = []
  · have hnil := processRTMP_nil
      ⟨⟨[], .handshakeDone, 4096, pcs, was, pbw, sk, im, ml, mt, msid, lts⟩,
       ⟨br + d.length, las⟩⟩ rfl
    simp only [hb]
    simp [hnil]
  · have hb2 : ((buf ++ d).drop 1536).isEmpty = false := by
      simpa [List.isEmpty_iff] using hb
    simp [hb2]

theorem handleConnect_core (c : Core) (csid tid : Nat) : (handleConnect c csid tid).1 = c := rfl

theorem handlePublish_core (c : Core) (csid : Nat) (args : List AMF0Value) :
    ∃ sk, (handlePublish c csid args).1 = {c with streamKey := sk} :=
  ⟨_, rfl⟩

/-- `handleCommand` can change only the stream key. -/
theorem handleCommand_core (c : Core) (p : List Nat) (csid sid : Nat) (b : Bool) :
    ∃ sk, (handleCommand c p csid sid b).1 = {c with streamKey := sk} := by
  unfold handleCommand
  dsimp only
  repeat' split
  all_goals first
    | exact ⟨c.streamKey, rfl⟩
    | exact handlePublish_core c csid _

/-- The dispatcher can change only `peerChunkSize` (Set-Chunk-Size) and
`streamKey` (publish). -/
theorem handleCompleteMessage_core (c : Core) (mt : Nat) (p : List Nat) (cs sid : Nat) :
    ∃ pcs sk, (handleCompleteMessage c mt p cs sid).1 =
      {c with peerChunkSize := pcs, streamKey := sk} := by
  unfold handleCompleteMessage
  repeat' split
  all_goals try exact ⟨c.peerChunkSize, c.streamKey, rfl⟩
  all_goals try exact ⟨_, c.streamKey, rfl⟩
  all_goals
    obtain ⟨sk, hsk⟩ := handleCommand_core c p cs sid _
    exact ⟨c.peerChunkSize, sk, by rw [hsk]⟩

/-- `applyCache` can change only the four per-csid cache maps. -/
theorem applyCache_core (c : Core) (h : HeaderInfo) :
    ∃ lt ll lmt ls, applyCache c h =
      {c with lastTimestamp := lt, lastMessageLength := ll,
              lastMessageType := lmt, lastMessageStreamId := ls} := by
  unfold applyCache
  repeat' split
  all_goals exact ⟨_, _, _, _, rfl⟩

/-- Fields no loop pass ever modifies. -/
def stepFrame (c c' : Core) : Prop :=
  c'.hs = c.hs ∧ c'.chunkSize = c.chunkSize ∧ c'.windowAckSize = c.windowAckSize ∧
    c'.peerBandwidth = c.peerBandwidth

theorem handleCompleteMessage_hs (c : Core) (mt : Nat) (p : List Nat) (cs sid : Nat) :
    (handleCompleteMessage c mt p cs sid).1.hs = c.hs := by
  obtain ⟨pcs, sk, h⟩ := handleCompleteMessage_core c mt p cs sid
  rw [h]

theorem handleCompleteMessage_chunkSize (c : Core) (mt : Nat) (p : List Nat) (cs sid : Nat) :
    (handleCompleteMessage c mt p cs sid).1.chunkSize = c.chunkSize := by
  obtain ⟨pcs, sk, h⟩ := handleCompleteMessage_core c mt p cs sid
  rw [h]

theorem handleCompleteMessage_windowAckSize (c : Core) (mt : Nat) (p : List Nat) (cs sid : Nat) :
    (handleCompleteMessage c mt p cs sid).1.windowAckSize = c.windowAckSize := by
  obtain ⟨pcs, sk, h⟩ := handleCompleteMessage_core c mt p cs sid
  rw [h]

theorem handleCompleteMessage_peerBandwidth (c : Core) (mt : Nat) (p : List Nat) (cs sid : Nat) :
    (handleCompleteMessage c mt p cs sid).1.peerBandwidth = c.peerBandwidth := by
  obtain ⟨pcs, sk, h⟩ := handleCompleteMessage_core c mt p cs sid
  rw [h]

theorem handleCompleteMessage_buffer (c : Core) (mt : Nat) (p : List Nat) (cs sid : Nat) :
    (handleCompleteMessage c mt p cs sid).1.buffer = c.buffer := by
  obtain ⟨pcs, sk, h⟩ := handleCompleteMessage_core c mt p cs sid
  rw [h]

theorem handleCompleteMessage_incomplete (c : Core) (mt : Nat) (p : List Nat) (cs sid : Nat) :
    (handleCompleteMessage c mt p cs sid).1.incompleteMessages = c.incompleteMessages := by
  obtain ⟨pcs, sk, h⟩ := handleCompleteMessage_core c mt p cs sid
  rw [h]

theorem coreStep_halt_frame (c c' : Core) (h : coreStep c = .halt c') :
    stepFrame c c' ∧ c'.buffer = c.buffer ∧ c'.incompleteMessages = c.incompleteMessages ∧
      c'.peerChunkSize = c.peerChunkSize ∧ c'.streamKey = c.streamKey := by
  unfold coreStep at h
  rcases hph : parseHeader c with _ | hdr <;> rw [hph] at h
  · cases h
    exact ⟨⟨rfl, rfl, rfl, rfl⟩, rfl, rfl, rfl, rfl⟩
  · dsimp only at h
    obtain ⟨lt, ll, lmt, ls, hac⟩ := applyCache_core c hdr
    rw [hac] at h
    dsimp only at h
    split at h
    · cases h
      exact ⟨⟨rfl, rfl, rfl, rfl⟩, rfl, rfl, rfl, rfl⟩
    · split at h
      · split at h <;> cases h
      · split at h <;> cases h

theorem coreStep_cont_frame (c c' : Core) (m : List Msg) (e : List Eff)
    (h : coreStep c = .cont c' m e) : stepFrame c c' := by
  unfold coreStep at h
  rcases hph : parseHeader c with _ | hdr <;> rw [hph] at h
  · cases h
  · dsimp only at h
    obtain ⟨lt, ll, lmt, ls, hac⟩ := applyCache_core c hdr
    rw [hac] at h
    dsimp only at h
    split at h
    · cases h
    · split at h
      · split at h <;> cases h
        · exact ⟨by rw [handleCompleteMessage_hs], by rw [handleCompleteMessage_chunkSize],
                 by rw [handleCompleteMessage_windowAckSize],
                 by rw [handleCompleteMessage_peerBandwidth]⟩
        · exact ⟨rfl, rfl, rfl, rfl⟩
      · split at h <;> cases h
        · exact ⟨by dsimp only; rw [handleCompleteMessage_hs],
                 by dsimp only; rw [handleCompleteMessage_chunkSize],
                 by dsimp only; rw [handleCompleteMessage_windowAckSize],
                 by dsimp only; rw [handleCompleteMessage_peerBandwidth]⟩
        · exact ⟨rfl, rfl, rfl, rfl⟩

theorem rtmpStep_halt_hs (s s' : Conn) (h : rtmpStep s = .halt s') :
    s'.core.hs = s.core.hs := by
  unfold rtmpStep at h
  rcases hcs : coreStep s.core with c | ⟨c, m, e⟩ <;> rw [hcs] at h <;> cases h
  exact (coreStep_halt_frame _ _ hcs).1.1

theorem rtmpStep_cont_hs (s s' : Conn) (m : List Msg) (e : List Eff)
    (h : rtmpStep s = .cont s' m e) : s'.core.hs = s.core.hs := by
  unfold rtmpStep at h
  rcases hcs : coreStep s.core with c | ⟨c, m2, e2⟩ <;> rw [hcs] at h <;> cases h
  exact (coreStep_cont_frame _ _ _ _ hcs).1

theorem rtmpLoop_hs (fuel : Nat) (s : Conn) : (rtmpLoop fuel s).1.core.hs = s.core.hs := by
  induction fuel generalizing s with
  | zero => rfl
  | succ n ih =>
    rw [rtmpLoop]
    split
    · rfl
    · cases hcs : rtmpStep s with
      | halt s' => simp only [hcs]; exact rtmpStep_halt_hs s s' hcs
      | cont s' msgs effs =>
        simp only [hcs]
        split
        · exact rtmpStep_cont_hs s s' msgs effs hcs
        · rw [ih s']
          exact rtmpStep_cont_hs s s' msgs effs hcs

theorem processRTMP_hs (s : Conn) : (processRTMPMessages s).1.core.hs = s.core.hs :=
  rtmpLoop_hs _ s

theorem c5_handshake_success (ts : Nat) (rand c1 : List Nat) (h : c1.length = 1536) :
    (handleData ts rand initConn (3 :: c1)).2.2 =
      [Eff.sockWrite (3 :: (s1Block ts rand ++ c1))] ∧
    (handleData ts rand initConn (3 :: c1)).1.core.hs = .ackSent ∧
    (3 :: (s1Block ts rand ++ c1)).length = 3073 ∧
    ((3 :: (s1Block ts rand ++ c1)).drop 1).take 4 = be32 ts ∧
    (((3 :: (s1Block ts rand ++ c1)).drop 1).drop 4).take 4 = [0, 0, 0, 0] ∧
    (3 :: (s1Block ts rand ++ c1)).drop 1537 = c1 := by
  have hsplit : s1Block ts rand ++ c1 =
      be32 ts ++ ([0, 0, 0, 0] ++ (((rand ++ List.replicate 1528 0).take 1528) ++ c1)) := by
    rw [s1Block, List.append_assoc, List.append_assoc]
  have hbe : (be32 ts).length = 4 := by simp [be32]
  have hkey := handleData_uninit ts rand initConn (3 :: c1)
      rfl (by show (1537 : Nat) ≤ (3 :: c1).length; rw [List.length_cons, h]) rfl
  have hc1 : ((initConn.core.buffer ++ (3 :: c1)).drop 1).take 1536 = c1 := by
    show c1.take 1536 = c1
    exact List.take_of_length_le (le_of_eq h)
  refine ⟨?_, ?_, ?_, ?_, ?_, ?_⟩
  · rw [hkey]
    show [Eff.sockWrite (3 :: (s1Block ts rand ++ ((initConn.core.buffer ++ (3 :: c1)).drop 1).take 1536))] = _
    rw [hc1]
  · rw [hkey]
  · rw [List.length_cons, List.length_append, s1Block_length, h]
  · rw [List.drop_one, List.tail_cons, hsplit, List.take_left' hbe]
  · rw [List.drop_one, List.tail_cons, hsplit, List.drop_left' hbe]
    rfl
  · show (s1Block ts rand ++ c1).drop 1536 = c1
    exact List.drop_left' (s1Block_length ts rand)

/-- The dispatcher can change only `peerChunkSize` (Set-Chunk-Size) and
`streamKey` (publish); every other `Core` field survives
`handleCompleteMessage` unchanged. -/
theorem c5_handshake_success_witness :
    (List.replicate 1536 7 : List Nat).length = 1536 ∧
    (handleData 100 [] initConn (3 :: List.replicate 1536 7)).1.core.hs = .ackSent := by
  refine ⟨List.length_replicate 1536 7,
    (c5_handshake_success 100 [] (List.replicate 1536 7) (List.length_replicate 1536 7)).2.1⟩

theorem c4_counterexample :
    (handleData 0 [] initConn
        ((3 :: List.replicate 1536 0) ++ List.replicate 1536 1)).1.core.hs =
      HSState.ackSent ∧
    (handleData 0 [] initConn
        ((3 :: List.replicate 1536 0) ++ List.replicate 1536 1)).1.core.buffer =
      List.replicate 1536 1 := by
  have hlen : (1537 : Nat) ≤
      (initConn.core.buffer ++ ((3 :: List.replicate 1536 0) ++ List.replicate 1536 1)).length := by
    show (1537 : Nat) ≤ ((3 :: List.replicate 1536 0) ++ List.replicate 1536 1).length
    rw [List.length_append, List.length_cons, List.length_replicate, List.length_replicate]
    omega
  have hkey := handleData_uninit 0 [] initConn
      ((3 :: List.replicate 1536 0) ++ List.replicate 1536 1) rfl hlen rfl
  have h0 : initConn.core.buffer = [] := rfl
  have hdl : ((3 :: List.replicate 1536 0 : List Nat)).length = 1537 := by
    rw [List.length_cons, List.length_replicate]
  rw [hkey]
  refine ⟨rfl, ?_⟩
  rewrite [h0, List.nil_append]
  with_reducible exact List.drop_left' hdl

theorem c4_amended (ts : Nat) (rand : List Nat) (s : Conn) (d : List Nat) :
    (s.core.hs = .uninitialized → 1537 ≤ (s.core.buffer ++ d).length →
      (s.core.buffer ++ d).getD 0 0 = 3 →
      (handleData ts rand s d).1.core.buffer = (s.core.buffer ++ d).drop 1537 ∧
      (handleData ts rand s d).1.core.hs = .ackSent) ∧
    (s.core.hs = .ackSent → 1536 ≤ (s.core.buffer ++ d).length →
      handleData ts rand s d =
        ((processRTMPMessages ⟨{s.core with buffer := (s.core.buffer ++ d).drop 1536, hs := .handshakeDone, chunkSize := 4096}, {s.ack with bytesReceived := s.ack.bytesReceived + d.length}⟩).1,
         (processRTMPMessages ⟨{s.core with buffer := (s.core.buffer ++ d).drop 1536, hs := .handshakeDone, chunkSize := 4096}, {s.ack with bytesReceived := s.ack.bytesReceived + d.length}⟩).2.1,
         [Eff.sockWrite (controlFrame 2 1 (be32 4096)),
          Eff.sockWrite (controlFrame 2 5 (be32 s.core.windowAckSize)),
          Eff.sockWrite (controlFrame 2 6 (be32 s.core.peerBandwidth ++ [2]))] ++
           (processRTMPMessages ⟨{s.core with buffer := (s.core.buffer ++ d).drop 1536, hs := .handshakeDone, chunkSize := 4096}, {s.ack with bytesReceived := s.ack.bytesReceived + d.length}⟩).2.2)) := by
  constructor
  · intro hhs hlen hv
    rw [handleData_uninit ts rand s d hhs hlen hv]
    exact ⟨rfl, rfl⟩
  · intro hhs hlen
    exact handleData_ackSent ts rand s d hhs hlen

theorem c4_amended_witness :
    (⟨{initCore with hs := .ackSent}, ⟨0, 0⟩⟩ : Conn).core.hs = HSState.ackSent ∧
    1536 ≤ (((⟨{initCore with hs := .ackSent}, ⟨0, 0⟩⟩ : Conn).core.buffer ++
      List.replicate 1536 0 : List Nat)).length ∧
    (handleData 0 [] ⟨{initCore with hs := .ackSent}, ⟨0, 0⟩⟩
        (List.replicate 1536 0)).1.core.hs = HSState.handshakeDone := by
  have hlen : (1536 : Nat) ≤
      ((⟨{initCore with hs := .ackSent}, ⟨0, 0⟩⟩ : Conn).core.buffer ++
        List.replicate 1536 0 : List Nat).length := by
    show (1536 : Nat) ≤ (List.replicate 1536 0 : List Nat).length
    rw [List.length_replicate]
  refine ⟨rfl, hlen, ?_⟩
  have hkey := (c4_amended 0 [] ⟨{initCore with hs := .ackSent}, ⟨0, 0⟩⟩
      (List.replicate 1536 0)).2 rfl hlen
  rw [hkey]
  rw [processRTMP_hs]

/-! ## Claim C3 — audio/video forwarding -/

/-- C3 counterexample: a complete Video (type 9) message whose payload starts
with the 1-byte FLV-style packet header `0x17` is forwarded to the pipeline
collaborator **whole** — the forwarded buffer still equals the full payload
and differs from every stripped version of it, and the collaborator call
(`processVideoBuffer`) carries no timestamp; so the payload is not forwarded
"after stripping the protocol-specific framing". -/
theorem c3_counterexample :
    handleCompleteMessage initCore 9 [23, 1, 0, 0, 0, 170] 4 1 =
      (initCore, [Eff.pushVideo [23, 1, 0, 0, 0, 170]]) ∧
    List.drop 1 [23, 1, 0, 0, 0, 170] ≠ [23, 1, 0, 0, 0, 170] := by
  exact ⟨rfl, by decide⟩

/-- C3 amended: Audio (type 8) and Video (type 9) messages bypass command
dispatch entirely; the **full** payload — framing bytes included, with no
timestamp attached — is handed to the pipeline collaborator
(`processAudioBuffer`/`processVideoBuffer`), and the connection state is left
unchanged. -/
theorem c3_amended (c : Core) (p : List Nat) (csid sid : Nat) :
    handleCompleteMessage c 8 p csid sid = (c, [Eff.pushAudio p]) ∧
    handleCompleteMessage c 9 p csid sid = (c, [Eff.pushVideo p]) := by
  exact ⟨rfl, rfl⟩

/-! ## Claim C7 — createStream handling -/

/-- C7 counterexample: dispatching a `createStream` command produces exactly
one socket write — the `_result` reply (message-type byte 20) — and no
Stream-Begin user-control message follows it, refuting "then sends a
Stream-Begin user-control message for that stream id". -/
theorem c7_counterexample :
    handleCommand initCore (encodeAMF0 (ascii "createStream") 0 []) 3 0 false =
      (initCore, [Eff.sockWrite (cmdFrame 3 (ascii "_result") 0 [.nullV, .num f64one])]) ∧
    (cmdFrame 3 (ascii "_result") 0 [.nullV, .num f64one]).getD 7 0 = 20 := by
  exact ⟨rfl, rfl⟩

/-- C7 amended: for every `createStream` command the dispatcher replies
`_result` carrying the fixed stream id 1 (as the IEEE-754 double 1.0) and
sends nothing else — in particular no Stream-Begin; the only Stream-Begin
this connection sends (for stream id 0) is emitted while handling `connect`. -/
theorem c7_amended (c : Core) (p : List Nat) (csid sid : Nat) (b3 : Bool)
    (tid : Nat) (args : List AMF0Value)
    (hp : parseAMF0 (p.drop (if b3 && (p.get? 0 == some 0) then 1 else 0)) =
      .ok (ascii "createStream", tid, args)) :
    handleCommand c p csid sid b3 =
      (c, [Eff.sockWrite (cmdFrame csid (ascii "_result") tid [.nullV, .num f64one])]) := by
  unfold handleCommand
  dsimp only
  rw [hp]
  rfl

theorem c7_amended_witness :
    parseAMF0 ((encodeAMF0 (ascii "createStream") 0 []).drop
        (if false && ((encodeAMF0 (ascii "createStream") 0 []).get? 0 == some 0) then 1 else 0)) =
      .ok (ascii "createStream", 0, []) ∧
    handleCommand initCore (encodeAMF0 (ascii "createStream") 0 []) 3 0 false =
      (initCore, [Eff.sockWrite (cmdFrame 3 (ascii "_result") 0 [.nullV, .num f64one])]) :=
  ⟨rfl, c7_amended initCore (encodeAMF0 (ascii "createStream") 0 []) 3 0 false 0 [] rfl⟩

/-! ## Claim C9 — parse-error containment -/

/-- C9 counterexample: a `createStream` command payload **containing** an
unrecognised marker (`0x07`) after the transaction id is not a decode failure
and is not dropped — the command is dispatched normally and the `_result`
reply is written, refuting "decoding fails … the single offending message is
dropped and logged" for messages merely containing an unrecognised marker. -/
theorem c9_counterexample :
    handleCommand initCore
        ((2 :: (be16 12 ++ ascii "createStream")) ++ (0 :: be64 0) ++ [7, 255]) 3 0 false =
      (initCore, [Eff.sockWrite (cmdFrame 3 (ascii "_result") 0 [.nullV, .num f64one])]) ∧
    [Eff.sockWrite (cmdFrame 3 (ascii "_result") 0 [.nullV, .num f64one])] ≠ [Eff.logE] := by
  refine ⟨rfl, by simp⟩

/-- C9 amended: a command payload whose AMF0 **prelude** is malformed (wrong
name/transaction-id markers, or a read past the end of the buffer) raises a
decode error that is contained to that one message: it is dropped and logged,
no other effect is produced (the connection stays open), and the connection
state — byte buffer and per-csid state included — is completely unchanged, so
subsequent valid messages parse normally. An unrecognised marker at an
argument position, by contrast, merely ends argument parsing and the command
is dispatched with the arguments collected so far. -/
theorem c9_amended (c : Core) (p : List Nat) (csid sid : Nat) (b3 : Bool)
    (hp : parseAMF0 (p.drop (if b3 && (p.get? 0 == some 0) then 1 else 0)) = .error ()) :
    handleCommand c p csid sid b3 = (c, [Eff.logE]) := by
  unfold handleCommand
  dsimp only
  rw [hp]

theorem c9_amended_witness :
    parseAMF0 (([7, 7, 7] : List Nat).drop
        (if false && (([7, 7, 7] : List Nat).get? 0 == some 0) then 1 else 0)) = .error () ∧
    handleCommand initCore [7, 7, 7] 3 0 false = (initCore, [Eff.logE]) :=
  ⟨rfl, c9_amended initCore [7, 7, 7] 3 0 false rfl⟩

/-! ## Claim C6 — connect / createStream / publish scenario -/

/-- A post-handshake connection. -/
def doneConn : Conn := ⟨{initCore with hs := .handshakeDone}, ⟨0, 0⟩⟩

/-- A single format-0 chunk on csid 3 carrying one AMF0 command message. -/
def cmdChunk (payload : List Nat) : List Nat :=
  3 :: (be24 0 ++ be24 payload.length ++ ([20] ++ le32 0)) ++ payload

def connectBytes : List Nat := encodeAMF0 (ascii "connect") f64one []

def createStreamBytes : List Nat := encodeAMF0 (ascii "createStream") 0 []

/-- `publish("mystream")`: command name, transaction id 0, then the stream
key as the first argument (built by hand because the server-side encoder
skips top-level strings). -/
def publishBytes : List Nat :=
  (2 :: (be16 7 ++ ascii "publish")) ++ (0 :: be64 0) ++ (2 :: (be16 8 ++ ascii "mystream"))

/-- The three commands of the scenario, each as its own delivery. -/
def c6run : Conn × List Msg × List Eff :=
  feedAll 0 [] doneConn [cmdChunk connectBytes, cmdChunk createStreamBytes, cmdChunk publishBytes]

def isInitEff : Eff → Bool
  | .pipelineInit _ => true
  | _ => false

/-- The exact `onStatus`/NetStream.Publish.Start frame `handlePublish` sends. -/
def onStatusFrame : List Nat :=
  cmdFrame 3 (ascii "onStatus") 0
    [.nullV,
     .object [(ascii "level", .str (ascii "status")),
              (ascii "code", .str (ascii "NetStream.Publish.Start")),
              (ascii "description", .str (ascii "Stream is now published")),
              (ascii "details", .str (ascii "mystream"))]]

/-- C6: after the handshake, processing `connect`, `createStream`, then
`publish("mystream")` records the stream key "mystream", emits exactly one
pipeline-collaborator initialization — with key "mystream" — and writes
exactly one `onStatus` response carrying `NetStream.Publish.Start`. -/
theorem c6_command_scenario :
    c6run.2.2.filter isInitEff = [Eff.pipelineInit (.str (ascii "mystream"))] ∧
    (match c6run.1.core.streamKey with
     | some (.str k) => k == ascii "mystream"
     | _ => false) = true ∧
    c6run.2.2.countP (fun e =>
      match e with
      | .sockWrite b => b == onStatusFrame
      | _ => false) = 1 := by
  exact ⟨rfl, rfl, rfl⟩

/-! ## Association-list map lemmas -/

theorem lookup_filter_ne {α : Type} (m : List (Nat × α)) (k k' : Nat) (h : k' ≠ k) :
    (m.filter (fun p => !(p.1 == k))).lookup k' = m.lookup k' := by
  induction m with
  | nil => rfl
  | cons a m ih =>
    rcases a with ⟨a1, a2⟩
    have hkk : (k' == k) = false := by simp [h]
    by_cases ha : a1 = k
    · subst ha
      simp [List.filter_cons, List.lookup, hkk, ih]
    · by_cases hk : k' = a1
      · subst hk
        simp [List.filter_cons, List.lookup, (by simpa using ha : (k' == k) = false), ha]
      · simp [List.filter_cons, ha, List.lookup, (by simp [hk] : (k' == a1) = false), ih]

theorem lookup_filter_self {α : Type} (m : List (Nat × α)) (k : Nat) :
    (m.filter (fun p => !(p.1 == k))).lookup k = none := by
  induction m with
  | nil => rfl
  | cons a m ih =>
    rcases a with ⟨a1, a2⟩
    by_cases ha : a1 = k
    · subst ha
      simp [List.filter_cons, ih]
    · simp [List.filter_cons, ha, List.lookup,
        (by simp [Ne.symm ha] : (k == a1) = false), ih]

theorem lookup_mapSet_self {α : Type} (m : List (Nat × α)) (k : Nat) (v : α) :
    (mapSet m k v).lookup k = some v := by
  simp [mapSet, List.lookup]

theorem lookup_mapSet_ne {α : Type} (m : List (Nat × α)) (k : Nat) (v : α) (k' : Nat)
    (h : k' ≠ k) : (mapSet m k v).lookup k' = m.lookup k' := by
  have hk : (k' == k) = false := by simp [h]
  simp [mapSet, List.lookup, hk, lookup_filter_ne m k k' h]

theorem lookup_mapDel_self {α : Type} (m : List (Nat × α)) (k : Nat) :
    (mapDel m k).lookup k = none := lookup_filter_self m k

theorem lookup_mapDel_ne {α : Type} (m : List (Nat × α)) (k : Nat) (k' : Nat)
    (h : k' ≠ k) : (mapDel m k).lookup k' = m.lookup k' := lookup_filter_ne m k k' h

theorem mem_of_lookup {α : Type} (m : List (Nat × α)) (k : Nat) (v : α)
    (h : m.lookup k = some v) : (k, v) ∈ m := by
  induction m with
  | nil => cases h
  | cons a m ih =>
    rcases a with ⟨a1, a2⟩
    by_cases hk : k = a1
    · subst hk
      simp only [List.lookup, beq_self_eq_true] at h
      cases h
      exact List.mem_cons_self _ _
    · simp only [List.lookup, (by simp [hk] : (k == a1) = false)] at h
      exact List.mem_cons_of_mem _ (ih h)

theorem mem_mapSet {α : Type} (m : List (Nat × α)) (k : Nat) (v : α) (p : Nat × α)
    (h : p ∈ mapSet m k v) : p = (k, v) ∨ p ∈ m := by
  rw [mapSet] at h
  rcases List.mem_cons.mp h with h | h
  · exact Or.inl h
  · exact Or.inr (List.mem_of_mem_filter h)

/-! ## Claim C8 — acknowledgement bookkeeping -/

theorem ackCheck_bytes (a : AckSt) (w : Nat) :
    (ackCheck a w).1.bytesReceived = a.bytesReceived := by
  unfold ackCheck
  split <;> rfl

theorem rtmpStep_halt_ack (s s' : Conn) (h : rtmpStep s = .halt s') : s'.ack = s.ack := by
  unfold rtmpStep at h
  rcases hcs : coreStep s.core with c | ⟨c, m, e⟩ <;> rw [hcs] at h <;> cases h
  rfl

theorem rtmpStep_cont_bytes (s s' : Conn) (m : List Msg) (e : List Eff)
    (h : rtmpStep s = .cont s' m e) : s'.ack.bytesReceived = s.ack.bytesReceived := by
  unfold rtmpStep at h
  rcases hcs : coreStep s.core with c | ⟨c, m2, e2⟩ <;> rw [hcs] at h <;> cases h
  exact ackCheck_bytes _ _

theorem rtmpLoop_bytes (fuel : Nat) (s : Conn) :
    (rtmpLoop fuel s).1.ack.bytesReceived = s.ack.bytesReceived := by
  induction fuel generalizing s with
  | zero => rfl
  | succ n ih =>
    rw [rtmpLoop]
    split
    · rfl
    · cases hcs : rtmpStep s with
      | halt s' => simp only [hcs]; rw [rtmpStep_halt_ack s s' hcs]
      | cont s' msgs effs =>
        simp only [hcs]
        split
        · exact rtmpStep_cont_bytes s s' msgs effs hcs
        · rw [ih s']
          exact rtmpStep_cont_bytes s s' msgs effs hcs

theorem processRTMP_bytes (s : Conn) :
    (processRTMPMessages s).1.ack.bytesReceived = s.ack.bytesReceived :=
  rtmpLoop_bytes _ s

theorem processHandshake_bytes (ts : Nat) (rand : List Nat) (s : Conn) :
    (processHandshake ts rand s).1.ack.bytesReceived = s.ack.bytesReceived := by
  unfold processHandshake
  split
  · split
    · split <;> rfl
    · rfl
  · split
    · dsimp only
      split
      · rfl
      · exact processRTMP_bytes _
    · rfl
  · rfl

theorem handleData_bytes (ts : Nat) (rand : List Nat) (s : Conn) (d : List Nat) :
    (handleData ts rand s d).1.ack.bytesReceived = s.ack.bytesReceived + d.length := by
  unfold handleData
  dsimp only
  split
  · exact processRTMP_bytes _
  · exact processHandshake_bytes _ _ _

/-- C8 amended: (1) the cumulative byte counter is monotonically increasing —
each delivery adds exactly its length; (2) the acknowledgement check runs only
when a loop pass actually consumes a chunk: whenever a pass consumes a chunk
while the counter exceeds the last-acknowledged count by at least the
negotiated window, an Acknowledgement carrying the current cumulative count is
emitted at the end of that pass's effects and last-acknowledged is set to the
counter; when the difference is below the window the two counters are left
unchanged and no acknowledgement is appended. Bytes that never complete a
chunk trigger no Acknowledgement even after the counter passes the window. -/
theorem c8_amended :
    (∀ ts rand s d, (handleData ts rand s d).1.ack.bytesReceived =
      s.ack.bytesReceived + d.length) ∧
    (∀ s s' m e, rtmpStep s = .cont s' m e →
      (s.core.windowAckSize ≤ s.ack.bytesReceived - s.ack.lastAckSent →
        s'.ack.lastAckSent = s.ack.bytesReceived ∧
        ∃ e1, e = e1 ++ [Eff.sockWrite (ackFrame s.ack.bytesReceived)]) ∧
      (s.ack.bytesReceived - s.ack.lastAckSent < s.core.windowAckSize →
        s'.ack = s.ack)) := by
  refine ⟨handleData_bytes, ?_⟩
  intro s s' m e h
  unfold rtmpStep at h
  rcases hcs : coreStep s.core with c | ⟨c, m2, e2⟩ <;> rw [hcs] at h
  · cases h
  · have hw : c.windowAckSize = s.core.windowAckSize :=
      (coreStep_cont_frame _ _ _ _ hcs).2.2.1
    cases h
    constructor
    · intro hge
      unfold ackCheck
      rw [hw, if_pos hge]
      exact ⟨rfl, e2, rfl⟩
    · intro hlt
      unfold ackCheck
      rw [hw, if_neg (Nat.not_le.mpr hlt)]

/-- A connection just past the handshake. -/
def c8wConn : Conn :=
  ⟨{initCore with hs := .handshakeDone, buffer := [3, 0, 0, 0, 0, 0, 0, 8, 0, 0, 0, 0]}, ⟨2500000, 0⟩⟩

def c8wCore : Core :=
  ⟨[], .handshakeDone, 128, 128, 2500000, 2500000, none, [],
   [(3, 0)], [(3, 8)], [(3, 0)], [(3, 0)]⟩

theorem c8_amended_witness :
    (handleData 0 [] doneConn [9]).1.ack.bytesReceived = doneConn.ack.bytesReceived + 1 ∧
    (⟨c8wCore, ⟨2500000, 2500000⟩⟩ : Conn).ack.lastAckSent = c8wConn.ack.bytesReceived ∧
    ∃ e1, [Eff.pushAudio [], Eff.sockWrite (ackFrame 2500000)] =
      e1 ++ [Eff.sockWrite (ackFrame c8wConn.ack.bytesReceived)] := by
  have h2 := (c8_amended.2 c8wConn ⟨c8wCore, ⟨2500000, 2500000⟩⟩ [⟨8, [], 3, 0, 0⟩]
      [Eff.pushAudio [], Eff.sockWrite (ackFrame 2500000)] rfl).1 (by decide)
  exact ⟨c8_amended.1 0 [] doneConn [9], h2.1, h2.2⟩

/-- C8 counterexample state: 2,500,000 cumulative bytes received, none yet
acknowledged, and a lone basic-header byte pending (an incomplete chunk). -/
def c8cConn : Conn := ⟨{initCore with hs := .handshakeDone, buffer := [3]}, ⟨2500000, 0⟩⟩

/-- C8 counterexample: delivering one more byte advances the cumulative
counter past the last-acknowledged count by the full window
(2,500,001 − 0 ≥ 2,500,000), yet the delivery produces no effect at all — in
particular no Acknowledgement — because the buffered bytes do not form a
complete chunk; this refutes "an Acknowledgement … is emitted whenever that
counter advances past the last-acknowledged count by at least the negotiated
window size". -/
theorem c8_counterexample :
    (handleData 0 [] c8cConn [0]).2.2 = [] ∧
    (handleData 0 [] c8cConn [0]).1.core.windowAckSize ≤
      (handleData 0 [] c8cConn [0]).1.ack.bytesReceived -
        (handleData 0 [] c8cConn [0]).1.ack.lastAckSent := by
  exact ⟨rfl, by decide⟩

/-! ## Claim C10 — PartialMessage invariant -/

/-- The PartialMessage invariant: every stored in-progress reassembly has
strictly fewer accumulated bytes than its declared total (it is promoted and
removed the moment the two become equal), and its accumulated buffer length
agrees with its byte count. -/
def partialInv (c : Core) : Prop :=
  ∀ p ∈ c.incompleteMessages, p.2.bytesReceived < p.2.totalLength ∧
    p.2.buffer.length = p.2.bytesReceived

theorem c10_partial_invariant (c c' : Core) (m : List Msg) (e : List Eff)
    (hinv : partialInv c) (h : coreStep c = .cont c' m e) :
    partialInv c' ∧
    (∀ k im, c.incompleteMessages.lookup k = some im →
      c'.incompleteMessages.lookup k = none →
      ∃ msg, m = [msg] ∧ msg.payload.length = im.totalLength) := by
  unfold coreStep at h
  rcases hph : parseHeader c with _ | hdr <;> rw [hph] at h
  · cases h
  · dsimp only at h
    obtain ⟨lt, ll, lmt, ls, hac⟩ := applyCache_core c hdr
    rw [hac] at h
    dsimp only at h
    rcases hlk : List.lookup hdr.csid c.incompleteMessages with _ | im <;>
      rw [hlk] at h <;> dsimp only at h
    · split at h
      · cases h
      · rename_i hbuf
        split at h
        · cases h
          rename_i hle
          constructor
          · intro p hp
            rw [handleCompleteMessage_incomplete] at hp
            exact hinv p hp
          · intro k im2 hk hnone
            rw [handleCompleteMessage_incomplete] at hnone
            have hnone' : List.lookup k c.incompleteMessages = none := hnone
            rw [hk] at hnone'
            cases hnone'
        · cases h
          rename_i hgt
          constructor
          · intro p hp
            rcases mem_mapSet _ _ _ _ hp with hp | hp
            · subst hp
              dsimp only
              refine ⟨by omega, ?_⟩
              simp only [List.length_take, List.length_drop]
              omega
            · exact hinv p hp
          · intro k im2 hk hnone
            by_cases hkc : k = hdr.csid
            · subst hkc
              rw [hk] at hlk
              cases hlk
            · rw [lookup_mapSet_ne _ _ _ _ hkc] at hnone
              have hnone' : List.lookup k c.incompleteMessages = none := hnone
              rw [hk] at hnone'
              cases hnone'
    · have hmem := hinv _ (mem_of_lookup _ _ _ hlk)
      dsimp only at hmem
      split at h
      · cases h
      · rename_i hbuf
        split at h
        · cases h
          rename_i hdone
          constructor
          · intro p hp
            have hp2 := List.mem_of_mem_filter hp
            have hne : p.1 ≠ hdr.csid := by
              have := List.of_mem_filter hp
              simpa using this
            rw [handleCompleteMessage_incomplete] at hp2
            rcases mem_mapSet _ _ _ _ hp2 with hp3 | hp3
            · exact absurd (congrArg Prod.fst hp3) hne
            · exact hinv p hp3
          · intro k im2 hk hnone
            by_cases hkc : k = hdr.csid
            · subst hkc
              rw [hk] at hlk
              have him := Option.some.inj hlk
              subst him
              refine ⟨⟨im2.messageType,
                  im2.buffer ++ List.take (min (im2.totalLength - im2.bytesReceived) c.peerChunkSize)
                    (List.drop hdr.headerSize c.buffer),
                  hdr.csid, im2.streamId, im2.timestamp⟩, rfl, ?_⟩
              dsimp only at hdone ⊢
              simp only [List.length_append, List.length_take, List.length_drop]
              omega
            · rw [lookup_mapDel_ne _ _ _ hkc, handleCompleteMessage_incomplete,
                lookup_mapSet_ne _ _ _ _ hkc] at hnone
              have hnone' : List.lookup k c.incompleteMessages = none := hnone
              rw [hk] at hnone'
              cases hnone'
        · cases h
          rename_i hnotdone
          constructor
          · intro p hp
            rcases mem_mapSet _ _ _ _ hp with hp | hp
            · subst hp
              dsimp only at hnotdone ⊢
              refine ⟨by omega, ?_⟩
              simp only [List.length_append, List.length_take, List.length_drop]
              omega
            · exact hinv p hp
          · intro k im2 hk hnone
            by_cases hkc : k = hdr.csid
            · subst hkc
              rw [lookup_mapSet_self] at hnone
              cases hnone
            · rw [lookup_mapSet_ne _ _ _ _ hkc] at hnone
              have hnone' : List.lookup k c.incompleteMessages = none := hnone
              rw [hk] at hnone'
              cases hnone'

/-- A connection with an in-progress PartialMessage on csid 3 (2 of 4 bytes
accumulated) and a buffered format-3 continuation chunk carrying the last 2. -/
def c10wCore : Core :=
  ⟨[195, 6, 7], .handshakeDone, 128, 128, 2500000, 2500000, none,
   [(3, ⟨[5, 5], 2, 4, 9, 100, 1⟩)], [], [], [], []⟩

theorem c10_partial_invariant_witness :
    partialInv c10wCore ∧
    ∃ msg, [(⟨9, [5, 5, 6, 7], 3, 1, 100⟩ : Msg)] = [msg] ∧ msg.payload.length = 4 := by
  have hstep : coreStep c10wCore = .cont
      ⟨[], .handshakeDone, 128, 128, 2500000, 2500000, none, [], [], [], [], []⟩
      [⟨9, [5, 5, 6, 7], 3, 1, 100⟩] [Eff.pushVideo [5, 5, 6, 7]] := rfl
  have hinv : partialInv c10wCore := by
    intro p hp
    simp only [c10wCore, List.mem_cons, List.not_mem_nil, or_false] at hp
    subst hp
    exact ⟨by decide, by decide⟩
  have h := c10_partial_invariant c10wCore _ _ _ hinv hstep
  exact ⟨hinv, h.2 3 ⟨[5, 5], 2, 4, 9, 100, 1⟩ rfl rfl⟩


/-! ## Byte-level read/write round trips and shifts (for the AMF0 proofs) -/

theorem getD_shift (x l : List Nat) (o : Nat) (d : Nat) :
    (x ++ l).getD (x.length + o) d = l.getD o d := by
  rw [List.getD_append_right _ _ _ _ (Nat.le_add_right _ _), Nat.add_sub_cancel_left]

theorem get?_shift (x l : List Nat) (o : Nat) :
    (x ++ l).get? (x.length + o) = l.get? o := by
  rw [List.get?_append_right (Nat.le_add_right _ _), Nat.add_sub_cancel_left]

theorem read16_shift (x l : List Nat) (o : Nat) :
    read16BE (x ++ l) (x.length + o) = read16BE l o := by
  unfold read16BE
  rw [getD_shift, Nat.add_assoc, getD_shift]

theorem read32_shift (x l : List Nat) (o : Nat) :
    read32BE (x ++ l) (x.length + o) = read32BE l o := by
  unfold read32BE
  rw [show x.length + o + 1 = x.length + (o + 1) from Nat.add_assoc _ _ _,
      show x.length + o + 2 = x.length + (o + 2) from Nat.add_assoc _ _ _,
      show x.length + o + 3 = x.length + (o + 3) from Nat.add_assoc _ _ _,
      getD_shift, getD_shift, getD_shift, getD_shift]

theorem read64_shift (x l : List Nat) (o : Nat) :
    read64BE (x ++ l) (x.length + o) = read64BE l o := by
  unfold read64BE
  rw [read32_shift, Nat.add_assoc, read32_shift]

theorem strSlice_shift (x l : List Nat) (a c : Nat) :
    strSlice (x ++ l) (x.length + a) (x.length + c) = strSlice l a c := by
  unfold strSlice
  rw [List.take_append, List.drop_append]

theorem read16_be16 (n : Nat) (rest : List Nat) (h : n < 65536) :
    read16BE (be16 n ++ rest) 0 = n := by
  unfold read16BE be16
  simp only [List.cons_append, List.getD_cons_zero, List.getD_cons_succ]
  omega

theorem read32_be32 (n : Nat) (rest : List Nat) :
    read32BE (be32 n ++ rest) 0 = n % 4294967296 := by
  unfold read32BE be32
  simp only [List.cons_append, List.getD_cons_zero, List.getD_cons_succ]
  omega

theorem read64_be64 (n : Nat) (rest : List Nat) (h : n < 2 ^ 64) :
    read64BE (be64 n ++ rest) 0 = n := by
  unfold read64BE be64
  rw [List.append_assoc, read32_be32, Nat.zero_add]
  rw [show (4 : Nat) = (be32 (n / 4294967296)).length + 0 by simp [be32]]
  rw [read32_shift, read32_be32]
  omega

theorem strSlice_enc (s rest : List Nat) : strSlice (s ++ rest) 0 s.length = s := by
  unfold strSlice
  rw [List.take_left, List.drop_zero]

/-! ## Well-formed AMF0 values: the fragment on which encode/decode round-trips -/

/-- An object property the codec round-trips: string/number/boolean value,
key (and string value) short enough for its 16-bit length field, number
below `2^64`. -/
def wfProp (kv : List Nat × AMF0Value) : Bool :=
  match kv with
  | (k, .str s) => k.length < 65536 && s.length < 65536
  | (k, .num _n) => k.length < 65536 && _n < 18446744073709551616
  | (k, .boolean _) => k.length < 65536
  | _ => false

/-- A top-level argument the codec round-trips: Number, Null, or a one-level
Object of well-formed properties with pairwise-distinct keys. (A top-level
String is skipped by the encoder; a top-level Boolean halts the decoder's
argument loop.) -/
def wfArg : AMF0Value → Bool
  | .num n => n < 18446744073709551616
  | .nullV => true
  | .object props => props.all wfProp && (props.map Prod.fst).Nodup
  | _ => false

theorem encProp_len (p : List Nat × AMF0Value) : 2 ≤ (encProp p).length := by
  obtain ⟨k, v⟩ := p
  cases v <;> simp [encProp, be16]

theorem encArg_pos (a : AMF0Value) (h : wfArg a = true) : 0 < (encArg a).length := by
  cases a <;> simp_all [encArg, wfArg, be64, be32]

theorem length_le_encProps (props : List (List Nat × AMF0Value)) :
    props.length ≤ (props.map encProp).flatten.length := by
  induction props with
  | nil => simp
  | cons p ps ih =>
    simp only [List.map_cons, List.flatten_cons, List.length_append, List.length_cons]
    have := encProp_len p
    omega

theorem length_le_encArgs (args : List AMF0Value) (h : ∀ a ∈ args, wfArg a = true) :
    args.length ≤ (args.map encArg).flatten.length := by
  induction args with
  | nil => simp
  | cons a as ih =>
    simp only [List.map_cons, List.flatten_cons, List.length_append, List.length_cons]
    have h1 := encArg_pos a (h a (List.mem_cons_self a as))
    have h2 := ih (fun x hx => h x (List.mem_cons_of_mem a hx))
    omega

theorem objInsert_append (acc : List (List Nat × AMF0Value)) (k : List Nat) (v : AMF0Value)
    (h : ∀ q ∈ acc, q.1 ≠ k) : objInsert acc k v = acc ++ [(k, v)] := by
  unfold objInsert
  have hany : acc.any (fun p => p.1 == k) = false := by
    rw [List.any_eq_false]
    intro p hp
    simpa using h p hp
  rw [hany]
  simp

theorem term_false_of_len (a b : Nat) (z : Bool) (h : ¬(a = 0 ∧ b = 0)) :
    (((a == 0) && (b == 0)) && z) = false := by
  rcases eq_or_ne a 0 with ha | ha
  · have hb : b ≠ 0 := fun hb => h ⟨ha, hb⟩
    simp [ha, hb]
  · simp [ha]

/-! ## Cons- and prefix-peeling forms of the readers -/

theorem read16_cons (a : Nat) (l : List Nat) (o : Nat) :
    read16BE (a :: l) (o + 1) = read16BE l o := by
  have h := read16_shift [a] l o
  simp only [List.singleton_append, List.length_cons, List.length_nil, Nat.zero_add] at h
  rw [Nat.add_comm 1 o] at h
  exact h

theorem read64_cons (a : Nat) (l : List Nat) (o : Nat) :
    read64BE (a :: l) (o + 1) = read64BE l o := by
  have h := read64_shift [a] l o
  simp only [List.singleton_append, List.length_cons, List.length_nil, Nat.zero_add] at h
  rw [Nat.add_comm 1 o] at h
  exact h

theorem strSlice_cons (a : Nat) (l : List Nat) (x y : Nat) :
    strSlice (a :: l) (x + 1) (y + 1) = strSlice l x y := by
  have h := strSlice_shift [a] l x y
  simp only [List.singleton_append, List.length_cons, List.length_nil, Nat.zero_add] at h
  rw [Nat.add_comm 1 x, Nat.add_comm 1 y] at h
  exact h

@[simp] theorem be16_length (n : Nat) : (be16 n).length = 2 := rfl

@[simp] theorem be32_length (n : Nat) : (be32 n).length = 4 := rfl

@[simp] theorem be64_length (n : Nat) : (be64 n).length = 8 := rfl

theorem bgetD_cons0 (pre l : List Nat) (a d : Nat) :
    (pre ++ (a :: l)).getD pre.length d = a := by
  have h := getD_shift pre (a :: l) 0 d
  rw [Nat.add_zero] at h
  rw [h, List.getD_cons_zero]

theorem bgetD_cons1 (pre l : List Nat) (a b d : Nat) :
    (pre ++ (a :: (b :: l))).getD (pre.length + 1) d = b := by
  have h := getD_shift pre (a :: (b :: l)) 1 d
  rw [h, List.getD_cons_succ, List.getD_cons_zero]

theorem bgetD_cons2 (pre l : List Nat) (a b c d : Nat) :
    (pre ++ (a :: (b :: (c :: l)))).getD (pre.length + 2) d = c := by
  have h := getD_shift pre (a :: (b :: (c :: l))) 2 d
  rw [h, List.getD_cons_succ, List.getD_cons_succ, List.getD_cons_zero]

theorem bgetD0 (pre l : List Nat) (n d : Nat) :
    (pre ++ (be16 n ++ l)).getD pre.length d = n / 256 % 256 := by
  have h := getD_shift pre (be16 n ++ l) 0 d
  rw [Nat.add_zero] at h
  rw [h]
  simp [be16]

theorem bgetD1 (pre l : List Nat) (n d : Nat) :
    (pre ++ (be16 n ++ l)).getD (pre.length + 1) d = n % 256 := by
  have h := getD_shift pre (be16 n ++ l) 1 d
  rw [h]
  simp [be16]

theorem bgetD2 (pre l : List Nat) (n d : Nat) :
    (pre ++ (be16 n ++ l)).getD (pre.length + 2) d = l.getD 0 d := by
  have h := getD_shift (pre ++ be16 n) l 0 d
  rw [Nat.add_zero, List.append_assoc] at h
  rw [show (pre ++ be16 n).length = pre.length + 2 by simp] at h
  exact h

theorem bread16 (pre l : List Nat) (n : Nat) (hn : n < 65536) :
    read16BE (pre ++ (be16 n ++ l)) pre.length = n := by
  have h := read16_shift pre (be16 n ++ l) 0
  rw [Nat.add_zero] at h
  rw [h, read16_be16 n l hn]

theorem bslice_key (pre k l : List Nat) :
    strSlice (pre ++ (be16 k.length ++ (k ++ l))) (pre.length + 2) (pre.length + 2 + k.length)
      = k := by
  have h := strSlice_shift (pre ++ be16 k.length) (k ++ l) 0 k.length
  rw [Nat.add_zero, List.append_assoc] at h
  rw [show (pre ++ be16 k.length).length = pre.length + 2 by simp] at h
  rw [h, strSlice_enc]

theorem bget2 (pre k : List Nat) (m : Nat) (w : List Nat) :
    (pre ++ (be16 k.length ++ (k ++ (m :: w)))).get? (pre.length + 2 + k.length) = some m := by
  have h := get?_shift (pre ++ (be16 k.length ++ k)) (m :: w) 0
  rw [Nat.add_zero, List.append_assoc, List.append_assoc] at h
  rw [show (pre ++ (be16 k.length ++ k)).length = pre.length + 2 + k.length by
        simp [List.length_append]; omega] at h
  rw [h, List.get?_cons_zero]

theorem bread16_deep (pre k s l : List Nat) (hs : s.length < 65536) :
    read16BE (pre ++ (be16 k.length ++ (k ++ (2 :: (be16 s.length ++ (s ++ l))))))
      (pre.length + 2 + k.length + 1) = s.length := by
  have h := read16_shift (pre ++ (be16 k.length ++ (k ++ [2]))) (be16 s.length ++ (s ++ l)) 0
  rw [Nat.add_zero] at h
  simp only [List.append_assoc, List.cons_append, List.nil_append] at h
  have hx : (pre ++ (be16 k.length ++ (k ++ [2]))).length = pre.length + 2 + k.length + 1 := by
    simp [List.length_append]
    omega
  rw [hx] at h
  rw [h, read16_be16 _ _ hs]

theorem bslice_deep (pre k s l : List Nat) :
    strSlice (pre ++ (be16 k.length ++ (k ++ (2 :: (be16 s.length ++ (s ++ l))))))
      (pre.length + 2 + k.length + 3) (pre.length + 2 + k.length + 3 + s.length) = s := by
  have h := strSlice_shift (pre ++ (be16 k.length ++ (k ++ (2 :: be16 s.length)))) (s ++ l)
    0 s.length
  rw [Nat.add_zero] at h
  simp only [List.append_assoc, List.cons_append, List.nil_append] at h
  have hx : (pre ++ (be16 k.length ++ (k ++ (2 :: be16 s.length)))).length
      = pre.length + 2 + k.length + 3 := by
    simp [List.length_append]
    omega
  rw [hx] at h
  rw [h, strSlice_enc]

theorem bread64_deep (pre k l : List Nat) (n : Nat) (hn : n < 18446744073709551616) :
    read64BE (pre ++ (be16 k.length ++ (k ++ (0 :: (be64 n ++ l)))))
      (pre.length + 2 + k.length + 1) = n := by
  have h := read64_shift (pre ++ (be16 k.length ++ (k ++ [0]))) (be64 n ++ l) 0
  rw [Nat.add_zero] at h
  simp only [List.append_assoc, List.cons_append, List.nil_append] at h
  have hx : (pre ++ (be16 k.length ++ (k ++ [0]))).length = pre.length + 2 + k.length + 1 := by
    simp [List.length_append]
    omega
  rw [hx] at h
  rw [h, read64_be64 n l (by omega)]

theorem bget_deep (pre k l : List Nat) (m bit : Nat) :
    (pre ++ (be16 k.length ++ (k ++ (m :: (bit :: l))))).get? (pre.length + 2 + k.length + 1)
      = some bit := by
  have h := get?_shift (pre ++ (be16 k.length ++ (k ++ [m]))) (bit :: l) 0
  rw [Nat.add_zero] at h
  simp only [List.append_assoc, List.cons_append, List.nil_append] at h
  have hx : (pre ++ (be16 k.length ++ (k ++ [m]))).length = pre.length + 2 + k.length + 1 := by
    simp [List.length_append]
    omega
  rw [hx] at h
  rw [h, List.get?_cons_zero]

theorem parseObjProps_enc
    (props : List (List Nat × AMF0Value)) :
    ∀ (pre rest : List Nat) (acc : List (List Nat × AMF0Value)) (fuel : Nat),
      (∀ p ∈ props, wfProp p = true) →
      ((props.map Prod.fst).Nodup) →
      (∀ p ∈ props, ∀ q ∈ acc, q.1 ≠ p.1) →
      props.length < fuel →
      parseObjProps (pre ++ ((props.map encProp).flatten ++ ([0, 0, 9] ++ rest)))
          fuel pre.length acc
        = .ok (acc ++ props, pre.length + (props.map encProp).flatten.length + 3) := by
  induction props with
  | nil =>
    intro pre rest acc fuel hw hnd hdisj hfuel
    obtain ⟨f, rfl⟩ : ∃ f, fuel = f + 1 := ⟨fuel - 1, by omega⟩
    simp only [List.map_nil, List.flatten_nil, List.nil_append, List.length_nil, Nat.add_zero,
      List.cons_append, List.append_nil]
    unfold parseObjProps
    rw [if_pos (by simp only [List.length_append, List.length_cons]; omega)]
    rw [bgetD_cons0, bgetD_cons1, bgetD_cons2]
    simp
  | cons p ps ih =>
    intro pre rest acc fuel hw hnd hdisj hfuel
    obtain ⟨k, v⟩ := p
    obtain ⟨f, rfl⟩ : ∃ f, fuel = f + 1 := ⟨fuel - 1, by omega⟩
    have hwp : wfProp (k, v) = true := hw _ (List.mem_cons_self _ _)
    have hw' : ∀ q ∈ ps, wfProp q = true := fun q hq => hw q (List.mem_cons_of_mem _ hq)
    have hkmem : k ∉ ps.map Prod.fst := by
      have h := hnd
      simp only [List.map_cons] at h
      exact (List.nodup_cons.mp h).1
    have hnd' : (ps.map Prod.fst).Nodup := by
      have h := hnd
      simp only [List.map_cons] at h
      exact (List.nodup_cons.mp h).2
    have hfuel' : ps.length < f := by
      simp only [List.length_cons] at hfuel
      omega
    have hdisjkv : ∀ q ∈ acc, q.1 ≠ k := fun q hq => hdisj (k, v) (List.mem_cons_self _ _) q hq
    have hdisj' : ∀ p' ∈ ps, ∀ q ∈ acc ++ [(k, v)], q.1 ≠ p'.1 := by
      intro p' hp' q hq
      rcases List.mem_append.mp hq with hqa | hqk
      · exact hdisj p' (List.mem_cons_of_mem _ hp') q hqa
      · have hq2 : q = (k, v) := by simpa using hqk
        subst hq2
        intro hcontra
        have hc2 : k = p'.1 := hcontra
        apply hkmem
        rw [hc2]
        exact List.mem_map_of_mem Prod.fst hp'
    cases v with
    | nullV => simp [wfProp] at hwp
    | object o => simp [wfProp] at hwp
    | str s =>
      obtain ⟨hk1, hs1⟩ : k.length < 65536 ∧ s.length < 65536 := by simpa [wfProp] using hwp
      simp only [List.map_cons, List.flatten_cons, encProp, List.append_assoc,
        List.cons_append, List.nil_append]
      unfold parseObjProps
      rw [if_pos (by
        simp only [List.length_append, List.length_cons, be16_length, List.length_nil]
        omega)]
      dsimp only
      rw [bread16 _ _ _ hk1, bgetD0, bgetD1, bgetD2]
      have hterm : ((k.length / 256 % 256 == 0 && k.length % 256 == 0) &&
          ((k ++ (2 :: (be16 s.length ++ (s ++ ((ps.map encProp).flatten ++
            (0 :: (0 :: (9 :: rest)))))))).getD 0 0 == 9)) = false := by
        cases k with
        | nil => simp
        | cons a t =>
          apply term_false_of_len
          simp only [List.length_cons] at hk1 ⊢
          omega
      rw [hterm, if_neg (by decide), bslice_key, bget2]
      split
      · rw [if_neg (by
          simp only [List.length_append, List.length_cons, be16_length, List.length_nil]
          omega)]
        rw [bread16_deep _ _ _ _ hs1, bslice_deep, objInsert_append _ _ _ hdisjkv]
        have H := ih (pre ++ (be16 k.length ++ (k ++ (2 :: (be16 s.length ++ s))))) rest
          (acc ++ [(k, AMF0Value.str s)]) f hw' hnd' hdisj' hfuel'
        simp only [List.append_assoc, List.cons_append, List.nil_append] at H
        have hoff : pre.length + 2 + k.length + 3 + s.length
            = (pre ++ (be16 k.length ++ (k ++ 2 :: (be16 s.length ++ s)))).length := by
          simp only [List.length_append, List.length_cons, be16_length]
          omega
        rw [hoff, H]
        simp only [Except.ok.injEq, Prod.mk.injEq, List.append_assoc, List.singleton_append,
          List.length_append, List.length_cons, be16_length, List.length_nil, true_and]
        omega
      · rename_i heq
        exact absurd heq (by decide)
      · rename_i heq
        exact absurd heq (by decide)
      · rename_i h1 h2 h3
        exact absurd rfl h1
    | num n =>
      obtain ⟨hk1, hn1⟩ : k.length < 65536 ∧ n < 18446744073709551616 := by
        simpa [wfProp] using hwp
      simp only [List.map_cons, List.flatten_cons, encProp, List.append_assoc,
        List.cons_append, List.nil_append]
      unfold parseObjProps
      rw [if_pos (by
        simp only [List.length_append, List.length_cons, be16_length, be64_length,
          List.length_nil]
        omega)]
      dsimp only
      rw [bread16 _ _ _ hk1, bgetD0, bgetD1, bgetD2]
      have hterm : ((k.length / 256 % 256 == 0 && k.length % 256 == 0) &&
          ((k ++ (0 :: (be64 n ++ ((ps.map encProp).flatten ++
            (0 :: (0 :: (9 :: rest))))))).getD 0 0 == 9)) = false := by
        cases k with
        | nil => simp
        | cons a t =>
          apply term_false_of_len
          simp only [List.length_cons] at hk1 ⊢
          omega
      rw [hterm, if_neg (by decide), bslice_key, bget2]
      split
      · rename_i heq
        exact absurd heq (by decide)
      · rw [if_neg (by
          simp only [List.length_append, List.length_cons, be16_length, be64_length,
            List.length_nil]
          omega)]
        rw [bread64_deep _ _ _ _ hn1, objInsert_append _ _ _ hdisjkv]
        have H := ih (pre ++ (be16 k.length ++ (k ++ (0 :: be64 n)))) rest
          (acc ++ [(k, AMF0Value.num n)]) f hw' hnd' hdisj' hfuel'
        simp only [List.append_assoc, List.cons_append, List.nil_append] at H
        have hoff : pre.length + 2 + k.length + 9
            = (pre ++ (be16 k.length ++ (k ++ 0 :: be64 n))).length := by
          simp only [List.length_append, List.length_cons, be16_length, be64_length]
          omega
        rw [hoff, H]
        simp only [Except.ok.injEq, Prod.mk.injEq, List.append_assoc, List.singleton_append,
          List.length_append, List.length_cons, be16_length, be64_length, List.length_nil,
          true_and]
        omega
      · rename_i heq
        exact absurd heq (by decide)
      · rename_i h1 h2 h3
        exact absurd rfl h2
    | boolean bb =>
      have hk1 : k.length < 65536 := by simpa [wfProp] using hwp
      cases bb with
      | true =>
        simp only [List.map_cons, List.flatten_cons, encProp, eq_self_iff_true, if_true,
          List.append_assoc, List.cons_append, List.nil_append]
        unfold parseObjProps
        rw [if_pos (by
          simp only [List.length_append, List.length_cons, be16_length, List.length_nil]
          omega)]
        dsimp only
        rw [bread16 _ _ _ hk1, bgetD0, bgetD1, bgetD2]
        have hterm : ((k.length / 256 % 256 == 0 && k.length % 256 == 0) &&
            ((k ++ (1 :: (1 :: ((ps.map encProp).flatten ++
              (0 :: (0 :: (9 :: rest))))))).getD 0 0 == 9)) = false := by
          cases k with
          | nil => simp
          | cons a t =>
            apply term_false_of_len
            simp only [List.length_cons] at hk1 ⊢
            omega
        rw [hterm, if_neg (by decide), bslice_key, bget2]
        split
        · rename_i heq
          exact absurd heq (by decide)
        · rename_i heq
          exact absurd heq (by decide)
        · rw [bget_deep]
          split
          · rename_i heq
            exact absurd heq (by decide)
          · rw [objInsert_append _ _ _ hdisjkv]
            have H := ih (pre ++ (be16 k.length ++ (k ++ (1 :: [1])))) rest
              (acc ++ [(k, AMF0Value.boolean true)]) f hw' hnd' hdisj' hfuel'
            simp only [List.append_assoc, List.cons_append, List.nil_append] at H
            have hoff : pre.length + 2 + k.length + 2
                = (pre ++ (be16 k.length ++ (k ++ 1 :: [1]))).length := by
              simp only [List.length_append, List.length_cons, be16_length, List.length_nil]
              omega
            rw [hoff, H]
            simp only [Except.ok.injEq, Prod.mk.injEq, List.append_assoc,
              List.singleton_append, List.length_append, List.length_cons, be16_length,
              List.length_nil, true_and]
            omega
        · rename_i h1 h2 h3
          exact absurd rfl h3
      | false =>
        have hbyte : (if false = true then (1 : Nat) else 0) = 0 := rfl
        simp only [List.map_cons, List.flatten_cons, encProp, hbyte, List.append_assoc,
          List.cons_append, List.nil_append]
        unfold parseObjProps
        rw [if_pos (by
          simp only [List.length_append, List.length_cons, be16_length, List.length_nil]
          omega)]
        dsimp only
        rw [bread16 _ _ _ hk1, bgetD0, bgetD1, bgetD2]
        have hterm : ((k.length / 256 % 256 == 0 && k.length % 256 == 0) &&
            ((k ++ (1 :: (0 :: ((ps.map encProp).flatten ++
              (0 :: (0 :: (9 :: rest))))))).getD 0 0 == 9)) = false := by
          cases k with
          | nil => simp
          | cons a t =>
            apply term_false_of_len
            simp only [List.length_cons] at hk1 ⊢
            omega
        rw [hterm, if_neg (by decide), bslice_key, bget2]
        split
        · rename_i heq
          exact absurd heq (by decide)
        · rename_i heq
          exact absurd heq (by decide)
        · rw [bget_deep]
          split
          · rw [objInsert_append _ _ _ hdisjkv]
            have H := ih (pre ++ (be16 k.length ++ (k ++ (1 :: [0])))) rest
              (acc ++ [(k, AMF0Value.boolean false)]) f hw' hnd' hdisj' hfuel'
            simp only [List.append_assoc, List.cons_append, List.nil_append] at H
            have hoff : pre.length + 2 + k.length + 2
                = (pre ++ (be16 k.length ++ (k ++ 1 :: [0]))).length := by
              simp only [List.length_append, List.length_cons, be16_length, List.length_nil]
              omega
            rw [hoff, H]
            simp only [Except.ok.injEq, Prod.mk.injEq, List.append_assoc,
              List.singleton_append, List.length_append, List.length_cons, be16_length,
              List.length_nil, true_and]
            omega
          · rename_i h1
            exact absurd rfl h1
        · rename_i h1 h2 h3
          exact absurd rfl h3

theorem bread64_arg (pre l : List Nat) (n : Nat) (hn : n < 18446744073709551616) :
    read64BE (pre ++ (0 :: (be64 n ++ l))) (pre.length + 1) = n := by
  have h := read64_shift (pre ++ [0]) (be64 n ++ l) 0
  rw [Nat.add_zero] at h
  simp only [List.append_assoc, List.cons_append, List.nil_append] at h
  have hx : (pre ++ [0]).length = pre.length + 1 := by simp
  rw [hx] at h
  rw [h, read64_be64 n l (by omega)]

theorem parseArgs_enc (args : List AMF0Value) :
    ∀ (pre : List Nat) (acc : List AMF0Value) (fuel : Nat),
      (∀ a ∈ args, wfArg a = true) →
      (args.getLast? ≠ some .nullV) →
      args.length < fuel →
      parseArgs (pre ++ (args.map encArg).flatten) fuel pre.length acc = .ok (acc ++ args) := by
  induction args with
  | nil =>
    intro pre acc fuel hw hlast hfuel
    obtain ⟨f, rfl⟩ : ∃ f, fuel = f + 1 := ⟨fuel - 1, by omega⟩
    simp only [List.map_nil, List.flatten_nil, List.append_nil]
    unfold parseArgs
    rw [if_neg (by omega)]
  | cons a as ih =>
    intro pre acc fuel hw hlast hfuel
    obtain ⟨f, rfl⟩ : ∃ f, fuel = f + 1 := ⟨fuel - 1, by omega⟩
    have hwa : wfArg a = true := hw _ (List.mem_cons_self _ _)
    have hw' : ∀ x ∈ as, wfArg x = true := fun x hx => hw x (List.mem_cons_of_mem _ hx)
    have hfuel' : as.length < f := by
      simp only [List.length_cons] at hfuel
      omega
    cases a with
    | str s => simp [wfArg] at hwa
    | boolean bb => simp [wfArg] at hwa
    | num n =>
      have hn1 : n < 18446744073709551616 := by simpa [wfArg] using hwa
      have hlast' : as.getLast? ≠ some AMF0Value.nullV := by
        cases as with
        | nil => simp
        | cons x xs =>
          rw [List.getLast?_cons_cons] at hlast
          exact hlast
      simp only [List.map_cons, List.flatten_cons, encArg, List.append_assoc,
        List.cons_append, List.nil_append]
      unfold parseArgs
      rw [if_pos (by
        simp only [List.length_append, List.length_cons, be64_length]
        omega)]
      dsimp only
      rw [bgetD_cons0, if_neg (by decide), if_neg (by decide), if_neg (by decide),
        if_pos (by decide)]
      rw [if_neg (by
        simp only [List.length_append, List.length_cons, be64_length]
        omega)]
      rw [bread64_arg _ _ _ hn1]
      have H := ih (pre ++ (0 :: be64 n)) (acc ++ [AMF0Value.num n]) f hw' hlast' hfuel'
      simp only [List.append_assoc, List.cons_append, List.nil_append] at H
      have hoff : pre.length + 9 = (pre ++ 0 :: be64 n).length := by
        simp only [List.length_append, List.length_cons, be64_length]
        try omega
      rw [hoff, H]
    | nullV =>
      cases as with
      | nil =>
        have hl : ([AMF0Value.nullV]).getLast? = some AMF0Value.nullV := by simp
        exact absurd hl hlast
      | cons a' as' =>
        have hlast' : (a' :: as').getLast? ≠ some AMF0Value.nullV := by
          rw [List.getLast?_cons_cons] at hlast
          exact hlast
        have hw'' : ∀ x ∈ as', wfArg x = true :=
          fun x hx => hw' x (List.mem_cons_of_mem _ hx)
        have hE : 0 < (encArg a').length := encArg_pos a' (hw' a' (List.mem_cons_self _ _))
        have henc : encArg AMF0Value.nullV = [5] := rfl
        simp only [List.map_cons, List.flatten_cons, henc, List.append_assoc,
          List.cons_append, List.nil_append]
        unfold parseArgs
        rw [if_pos (by
          simp only [List.length_append, List.length_cons]
          omega)]
        dsimp only
        rw [bgetD_cons0, if_neg (by decide), if_pos (by decide)]
        have H := ih (pre ++ [5]) (acc ++ [AMF0Value.nullV]) f hw' hlast' hfuel'
        simp only [List.map_cons, List.flatten_cons, List.append_assoc, List.cons_append,
          List.nil_append] at H
        have hoff : pre.length + 1 = (pre ++ [5]).length := by simp
        rw [hoff, H]
    | object o =>
      obtain ⟨hwo, hnd⟩ : (∀ p ∈ o, wfProp p = true) ∧ (o.map Prod.fst).Nodup := by
        simpa [wfArg, List.all_eq_true] using hwa
      have hlast' : as.getLast? ≠ some AMF0Value.nullV := by
        cases as with
        | nil => simp
        | cons x xs =>
          rw [List.getLast?_cons_cons] at hlast
          exact hlast
      simp only [List.map_cons, List.flatten_cons, encArg, List.append_assoc,
        List.cons_append, List.nil_append]
      unfold parseArgs
      rw [if_pos (by
        simp only [List.length_append, List.length_cons]
        omega)]
      dsimp only
      rw [bgetD_cons0, if_neg (by decide), if_neg (by decide), if_pos (by decide)]
      have hlp := length_le_encProps o
      have HO := parseObjProps_enc o (pre ++ [3]) ((as.map encArg).flatten) []
        ((pre ++ (3 :: ((o.map encProp).flatten ++
          (0 :: (0 :: (9 :: (as.map encArg).flatten)))))).length + 1)
        hwo hnd (fun p _ q hq => absurd hq (List.not_mem_nil q))
        (by
          simp only [List.length_append, List.length_cons]
          omega)
      simp only [List.append_assoc, List.cons_append, List.nil_append] at HO
      have hoff : pre.length + 1 = (pre ++ [3]).length := by simp
      rw [hoff, HO]
      dsimp only
      have H := ih (pre ++ (3 :: ((o.map encProp).flatten ++ [0, 0, 9])))
        (acc ++ [AMF0Value.object o]) f hw' hlast' hfuel'
      simp only [List.append_assoc, List.cons_append, List.nil_append] at H
      have hoff2 : (pre ++ [3]).length + (o.map encProp).flatten.length + 3
          = (pre ++ 3 :: ((o.map encProp).flatten ++ [0, 0, 9])).length := by
        simp only [List.length_append, List.length_cons, List.length_nil]
        omega
      rw [hoff2, H]

theorem read16_one (a : Nat) (l : List Nat) : read16BE (a :: l) 1 = read16BE l 0 :=
  read16_cons a l 0

theorem top_slice (name l : List Nat) :
    strSlice (2 :: (be16 name.length ++ (name ++ l))) 3 (3 + name.length) = name := by
  have h := strSlice_shift (2 :: be16 name.length) (name ++ l) 0 name.length
  rw [Nat.add_zero] at h
  simp only [List.cons_append, List.append_assoc] at h
  rw [show (2 :: be16 name.length).length = 3 by simp] at h
  rw [h, strSlice_enc]

theorem top_get (name l : List Nat) :
    (2 :: (be16 name.length ++ (name ++ (0 :: l)))).get? (3 + name.length) = some 0 := by
  have h := get?_shift (2 :: (be16 name.length ++ name)) (0 :: l) 0
  rw [Nat.add_zero] at h
  simp only [List.cons_append, List.append_assoc] at h
  have hx : (2 :: (be16 name.length ++ name)).length = 3 + name.length := by
    simp only [List.length_cons, List.length_append, be16_length]
    omega
  rw [hx] at h
  rw [h, List.get?_cons_zero]

theorem top_read64 (name l : List Nat) (t : Nat) (ht : t < 18446744073709551616) :
    read64BE (2 :: (be16 name.length ++ (name ++ (0 :: (be64 t ++ l)))))
      (3 + name.length + 1) = t := by
  have h := read64_shift (2 :: (be16 name.length ++ (name ++ [0]))) (be64 t ++ l) 0
  rw [Nat.add_zero] at h
  simp only [List.cons_append, List.append_assoc, List.nil_append] at h
  have hx : (2 :: (be16 name.length ++ (name ++ [0]))).length = 3 + name.length + 1 := by
    simp only [List.length_cons, List.length_append, be16_length, List.length_nil]
    omega
  rw [hx] at h
  rw [h, read64_be64 t l (by omega)]

/-- C2 counterexample core: the encoder's `typeof`-dispatch has no top-level
string branch (source 1010-1049), so a String argument contributes no bytes
at all, and decoding the result yields an empty argument list. -/
theorem c2_counterexample :
    encodeAMF0 (ascii "cmd") 0 [.str (ascii "x")] = encodeAMF0 (ascii "cmd") 0 [] ∧
    parseAMF0 (encodeAMF0 (ascii "cmd") 0 [.str (ascii "x")]) = .ok (ascii "cmd", 0, []) :=
  ⟨rfl, rfl⟩

/-- C2 (amended): the AMF0 encode/decode round trip holds for every command
whose name fits the 16-bit length field, whose transaction id is any 64-bit
pattern, and whose arguments are Numbers, Nulls (not in final position), and
one-level Objects with distinct keys and string/number/boolean property
values; top-level Strings are dropped by the encoder and top-level Booleans
stop the decoder's argument loop, so they are excluded. -/
theorem c2_amended (name : List Nat) (t : Nat) (args : List AMF0Value)
    (hname : name.length < 65536) (ht : t < 18446744073709551616)
    (hargs : ∀ a ∈ args, wfArg a = true)
    (hlast : args.getLast? ≠ some AMF0Value.nullV) :
    parseAMF0 (encodeAMF0 name t args) = .ok (name, t, args) := by
  have hB : encodeAMF0 name t args
      = 2 :: (be16 name.length ++ (name ++ (0 :: (be64 t ++ (args.map encArg).flatten)))) := by
    simp [encodeAMF0, List.cons_append, List.append_assoc]
  rw [hB]
  unfold parseAMF0
  rw [List.get?_cons_zero]
  split
  · rw [if_neg (by
      simp only [List.length_cons, List.length_append, be16_length, be64_length]
      omega)]
    dsimp only
    rw [read16_one, read16_be16 _ _ hname, top_slice, top_get]
    split
    · rw [if_neg (by
        simp only [List.length_cons, List.length_append, be16_length, be64_length]
        omega)]
      rw [top_read64 _ _ _ ht]
      have hla := length_le_encArgs args hargs
      have H := parseArgs_enc args (2 :: (be16 name.length ++ (name ++ (0 :: be64 t)))) []
        ((2 :: (be16 name.length ++ (name ++ (0 :: (be64 t ++
          (args.map encArg).flatten))))).length + 1)
        hargs hlast
        (by
          simp only [List.length_cons, List.length_append, be16_length, be64_length]
          omega)
      simp only [List.cons_append, List.append_assoc, List.nil_append] at H
      have hoff : 3 + name.length + 9
          = (2 :: (be16 name.length ++ (name ++ (0 :: be64 t)))).length := by
        simp only [List.length_cons, List.length_append, be16_length, be64_length]
        omega
      rw [hoff, H]
    · rename_i h1
      exact absurd rfl h1
  · rename_i h1
    exact absurd rfl h1

/-- Witness: a concrete connect-like command with a Number, a Null, and a
one-level Object carrying string/number/boolean properties round-trips. -/
theorem c2_amended_witness :
    parseAMF0 (encodeAMF0 (ascii "connect") f64one
      [.num 5, .nullV, .object [(ascii "k", .str (ascii "v")), (ascii "n", .num 7),
        (ascii "b", .boolean true)]])
      = .ok (ascii "connect", f64one,
        [.num 5, .nullV, .object [(ascii "k", .str (ascii "v")), (ascii "n", .num 7),
          (ascii "b", .boolean true)]]) :=
  c2_amended _ _ _ (by decide) (by decide) (by decide) (by simp)

/-! ## C1: canonical chunking of one message (format-0 header, format-3
continuations, csid 3) and its reassembly -/

/-- The 12-byte format-0 message header the chunking invariant speaks about:
basic header byte 3 (fmt 0, csid 3), 3-byte timestamp, 3-byte length, 1-byte
type, 4-byte little-endian stream id. -/
def mkHdr0 (ts len typ sid : Nat) : List Nat :=
  3 :: (be24 ts ++ (be24 len ++ (typ :: le32 sid)))

/-- Continuation chunks: each is the format-3 byte `0xC3` (fmt 3, csid 3)
followed by the next at-most-`C` payload bytes. -/
def contChunks (C : Nat) : Nat → List Nat → List Nat
  | _, [] => []
  | 0, _ => []
  | fuel+1, rest => (195 :: rest.take C) ++ contChunks C fuel (rest.drop C)

def contAll (C : Nat) (rest : List Nat) : List Nat := contChunks C rest.length rest

/-- A whole message, split at chunk size `C`. -/
def splitMessage (C ts typ sid : Nat) (payload : List Nat) : List Nat :=
  mkHdr0 ts payload.length typ sid ++ (payload.take C ++ contAll C (payload.drop C))

theorem contChunks_fuel (C : Nat) (hC : 1 ≤ C) :
    ∀ fuel fuel' rest, rest.length ≤ fuel → rest.length ≤ fuel' →
      contChunks C fuel rest = contChunks C fuel' rest := by
  intro fuel
  induction fuel with
  | zero =>
    intro fuel' rest h h'
    have : rest = [] := List.eq_nil_of_length_eq_zero (by omega)
    subst this
    cases fuel' <;> rfl
  | succ f ih =>
    intro fuel' rest h h'
    cases rest with
    | nil => cases fuel' <;> rfl
    | cons x xs =>
      obtain ⟨f', rfl⟩ : ∃ g, fuel' = g + 1 := ⟨fuel' - 1, by simp at h'; omega⟩
      show (195 :: (x :: xs).take C) ++ contChunks C f ((x :: xs).drop C)
        = (195 :: (x :: xs).take C) ++ contChunks C f' ((x :: xs).drop C)
      have hlen : ((x :: xs).drop C).length ≤ f := by
        simp only [List.length_drop, List.length_cons] at h ⊢
        omega
      have hlen' : ((x :: xs).drop C).length ≤ f' := by
        simp only [List.length_drop, List.length_cons] at h' ⊢
        omega
      rw [ih f' _ hlen hlen']

theorem contAll_cons (C : Nat) (hC : 1 ≤ C) (rest : List Nat) (hne : rest ≠ []) :
    contAll C rest = (195 :: rest.take C) ++ contAll C (rest.drop C) := by
  obtain ⟨x, xs, rfl⟩ : ∃ y ys, rest = y :: ys := by
    cases rest with
    | nil => exact absurd rfl hne
    | cons y ys => exact ⟨y, ys, rfl⟩
  show contChunks C ((x :: xs).length) (x :: xs) = _
  rw [show (x :: xs).length = xs.length + 1 from by simp]
  show (195 :: (x :: xs).take C) ++ contChunks C xs.length ((x :: xs).drop C) = _
  rw [contChunks_fuel C hC xs.length ((x :: xs).drop C).length ((x :: xs).drop C)
    (by simp; omega) (le_refl _)]
  rfl

theorem contAll_nil (C : Nat) : contAll C [] = [] := rfl

theorem contAll_length (C : Nat) (hC : 1 ≤ C) (rest : List Nat) (hne : rest ≠ []) :
    (contAll C rest).length = 1 + min rest.length C + (contAll C (rest.drop C)).length := by
  rw [contAll_cons C hC rest hne]
  simp only [List.length_append, List.length_cons, List.length_take]
  omega

theorem contAll_len_lb (C : Nat) (hC : 1 ≤ C) :
    ∀ (n : Nat) (rest : List Nat), rest.length ≤ n → rest ≠ [] →
      rest.length + 1 ≤ (contAll C rest).length := by
  intro n
  induction n with
  | zero =>
    intro rest h hne
    exact absurd (List.eq_nil_of_length_eq_zero (by omega)) hne
  | succ m ih =>
    intro rest h hne
    rw [contAll_length C hC rest hne]
    rcases eq_or_ne (rest.drop C) [] with hd | hd
    · have h2 := List.length_drop C rest
      rw [hd] at h2
      simp only [List.length_nil] at h2
      rw [hd, contAll_nil]
      simp only [List.length_nil]
      omega
    · have hrec := ih (rest.drop C) (by simp only [List.length_drop]; omega) hd
      simp only [List.length_drop] at hrec ⊢
      omega

theorem getD_take (l : List Nat) (n i d : Nat) (h : i < n) :
    (l.take n).getD i d = l.getD i d := by
  rw [List.getD_eq_getElem?_getD, List.getD_eq_getElem?_getD, List.getElem?_take, if_pos h]

theorem read24_take (l : List Nat) (n i : Nat) (h : i + 3 ≤ n) :
    read24BE (l.take n) i = read24BE l i := by
  unfold read24BE
  rw [getD_take _ _ _ _ (by omega), getD_take _ _ _ _ (by omega), getD_take _ _ _ _ (by omega)]

theorem read32LE_take (l : List Nat) (n i : Nat) (h : i + 4 ≤ n) :
    read32LE (l.take n) i = read32LE l i := by
  unfold read32LE
  rw [getD_take _ _ _ _ (by omega), getD_take _ _ _ _ (by omega),
    getD_take _ _ _ _ (by omega), getD_take _ _ _ _ (by omega)]

theorem head?_take (l : List Nat) (n : Nat) (h : 1 ≤ n) (a : Nat) (hl : l.head? = some a) :
    (l.take n).head? = some a := by
  cases l with
  | nil => simp at hl
  | cons x xs =>
    obtain ⟨m, rfl⟩ : ∃ m, n = m + 1 := ⟨n - 1, by omega⟩
    rw [List.take_succ_cons]
    simpa using hl

theorem read24_be24 (n : Nat) (rest : List Nat) :
    read24BE (be24 n ++ rest) 0 = n % 16777216 := by
  unfold read24BE be24
  simp only [List.cons_append, List.getD_cons_zero, List.getD_cons_succ]
  omega

theorem read32LE_le32 (n : Nat) (rest : List Nat) :
    read32LE (le32 n ++ rest) 0 = n % 4294967296 := by
  unfold read32LE le32
  simp only [List.cons_append, List.getD_cons_zero, List.getD_cons_succ]
  omega

theorem read24_shift (x l : List Nat) (o : Nat) :
    read24BE (x ++ l) (x.length + o) = read24BE l o := by
  unfold read24BE
  rw [show x.length + o + 1 = x.length + (o + 1) from Nat.add_assoc _ _ _,
      show x.length + o + 2 = x.length + (o + 2) from Nat.add_assoc _ _ _,
      getD_shift, getD_shift, getD_shift]

theorem read32LE_shift (x l : List Nat) (o : Nat) :
    read32LE (x ++ l) (x.length + o) = read32LE l o := by
  unfold read32LE
  rw [show x.length + o + 1 = x.length + (o + 1) from Nat.add_assoc _ _ _,
      show x.length + o + 2 = x.length + (o + 2) from Nat.add_assoc _ _ _,
      show x.length + o + 3 = x.length + (o + 3) from Nat.add_assoc _ _ _,
      getD_shift, getD_shift, getD_shift, getD_shift]

@[simp] theorem be24_length (n : Nat) : (be24 n).length = 3 := rfl

@[simp] theorem le32_length (n : Nat) : (le32 n).length = 4 := rfl

@[simp] theorem mkHdr0_length (ts len typ sid : Nat) : (mkHdr0 ts len typ sid).length = 12 := by
  simp [mkHdr0]

theorem hdr_getD0 (ts len typ sid : Nat) (X : List Nat) :
    (mkHdr0 ts len typ sid ++ X).getD 0 0 = 3 := rfl

theorem hdr_head (ts len typ sid : Nat) (X : List Nat) :
    (mkHdr0 ts len typ sid ++ X).head? = some 3 := rfl

theorem hdr_read_ts (ts len typ sid : Nat) (X : List Nat) (hts : ts < 16777216) :
    read24BE (mkHdr0 ts len typ sid ++ X) 1 = ts := by
  rw [show mkHdr0 ts len typ sid ++ X
      = 3 :: (be24 ts ++ (be24 len ++ (typ :: (le32 sid ++ X)))) from by
    simp [mkHdr0, List.append_assoc]]
  have h := read24_shift [3] (be24 ts ++ (be24 len ++ (typ :: (le32 sid ++ X)))) 0
  rw [Nat.add_zero] at h
  simp only [List.singleton_append, List.length_cons, List.length_nil, Nat.zero_add] at h
  rw [h, read24_be24]
  omega

theorem hdr_read_len (ts len typ sid : Nat) (X : List Nat) (hlen : len < 16777216) :
    read24BE (mkHdr0 ts len typ sid ++ X) 4 = len := by
  rw [show mkHdr0 ts len typ sid ++ X
      = (3 :: be24 ts) ++ (be24 len ++ ((typ :: le32 sid) ++ X)) from by
    simp [mkHdr0, List.append_assoc]]
  rw [show (4 : Nat) = (3 :: be24 ts).length + 0 from rfl, read24_shift, read24_be24]
  omega

theorem hdr_getD7 (ts len typ sid : Nat) (X : List Nat) :
    (mkHdr0 ts len typ sid ++ X).getD 7 0 = typ := by
  rw [show mkHdr0 ts len typ sid ++ X
      = (3 :: (be24 ts ++ be24 len)) ++ (typ :: (le32 sid ++ X)) from by
    simp [mkHdr0, List.append_assoc]]
  rw [show (7 : Nat) = (3 :: (be24 ts ++ be24 len)).length + 0 from by simp, getD_shift,
    List.getD_cons_zero]

theorem hdr_read_sid (ts len typ sid : Nat) (X : List Nat) (hsid : sid < 4294967296) :
    read32LE (mkHdr0 ts len typ sid ++ X) 8 = sid := by
  rw [show mkHdr0 ts len typ sid ++ X
      = (3 :: (be24 ts ++ (be24 len ++ [typ]))) ++ (le32 sid ++ X) from by
    simp [mkHdr0, List.append_assoc]]
  rw [show (8 : Nat) = (3 :: (be24 ts ++ (be24 len ++ [typ]))).length + 0 from by simp,
    read32LE_shift, read32LE_le32]
  omega

theorem handleData_done (ts : Nat) (rand : List Nat) (s : Conn) (d : List Nat)
    (h : s.core.hs = .handshakeDone) :
    handleData ts rand s d = processRTMPMessages
      ⟨{s.core with buffer := s.core.buffer ++ d},
       {s.ack with bytesReceived := s.ack.bytesReceived + d.length}⟩ := by
  unfold handleData
  dsimp only
  rw [if_pos (by show (s.core.hs == HSState.handshakeDone) = true; rw [h]; rfl)]

/-- One-pass analysis of the loop in the continuation phase (C1). Starting
with a partial message for csid 3 holding `a` payload bytes and a buffer that
is a prefix of the remaining continuation-chunk stream, the loop either halts
still inside the phase or consumes chunks through to the completed message. -/
theorem c1_loopB (C typ ts sid : Nat) (payload : List Nat) (hC : 1 ≤ C) :
    ∀ (fuel : Nat) (c : Core) (ack : AckSt) (a w : Nat),
      c.hs = .handshakeDone →
      c.peerChunkSize = C →
      0 < a → a < payload.length →
      c.incompleteMessages.lookup 3
        = some ⟨payload.take a, a, payload.length, typ, ts, sid⟩ →
      c.buffer = (contAll C (payload.drop a)).take w →
      w ≤ (contAll C (payload.drop a)).length →
      c.buffer.length + 1 ≤ fuel →
      ∃ c2 ack2 ms effs, rtmpLoop fuel ⟨c, ack⟩ = (⟨c2, ack2⟩, ms, effs) ∧
        c2.hs = .handshakeDone ∧
        ((∃ a2 w2,
            c2.peerChunkSize = C ∧ 0 < a2 ∧ a2 < payload.length ∧
            c2.incompleteMessages.lookup 3
              = some ⟨payload.take a2, a2, payload.length, typ, ts, sid⟩ ∧
            c2.buffer = (contAll C (payload.drop a2)).take w2 ∧
            w2 ≤ (contAll C (payload.drop a2)).length ∧
            w2 < 1 + min (payload.length - a2) C ∧
            (contAll C (payload.drop a2)).drop w2 = (contAll C (payload.drop a)).drop w ∧
            ms = [])
         ∨ (ms = [⟨typ, payload, 3, sid, ts⟩] ∧ c2.buffer = [] ∧
            (contAll C (payload.drop a)).drop w = [])) := by
  intro fuel
  induction fuel with
  | zero =>
    intro c ack a w _ _ _ _ _ _ _ hfuel
    exact absurd hfuel (by omega)
  | succ f ih =>
    intro c ack a w hhs hpcs ha0 haL hlk hbuf hwlen hfuel
    have hra : payload.drop a ≠ [] := by
      intro h
      have h2 := List.length_drop a payload
      rw [h] at h2
      simp only [List.length_nil] at h2
      omega
    have hcont0 := contAll_cons C hC (payload.drop a) hra
    have hcont : contAll C (payload.drop a)
        = 195 :: ((payload.drop a).take C ++ contAll C ((payload.drop a).drop C)) := by
      rw [hcont0, List.cons_append]
    have hlenAll := contAll_length C hC (payload.drop a) hra
    have hlenra : (payload.drop a).length = payload.length - a := List.length_drop a payload
    rw [rtmpLoop]
    by_cases hw0 : c.buffer.length = 0
    · have hbe : c.buffer = [] := List.eq_nil_of_length_eq_zero hw0
      rw [if_pos (by show c.buffer.isEmpty = true; rw [hbe]; rfl)]
      have hwz : w = 0 := by
        rw [hbuf, List.length_take] at hw0
        rw [hcont] at hw0
        simp only [List.length_cons] at hw0
        omega
      refine ⟨c, ack, [], [], rfl, hhs, Or.inl ⟨a, w, hpcs, ha0, haL, hlk, hbuf, hwlen, ?_,
        rfl, rfl⟩⟩
      omega
    · rw [if_neg (by
        show ¬(c.buffer.isEmpty = true)
        cases hb : c.buffer with
        | nil => rw [hb] at hw0; simp at hw0
        | cons x xs => simp)]
      have hw1 : 1 ≤ w := by
        rw [hbuf, List.length_take] at hw0
        omega
      have hblen : c.buffer.length = w := by
        rw [hbuf, List.length_take]
        omega
      have hhead : c.buffer.head? = some 195 := by
        rw [hbuf]
        apply head?_take _ _ hw1
        rw [hcont]
        rfl
      have hph : parseHeader c = some ⟨1, 3, 3, mapGetD c.lastTimestamp 3,
          mapGetD c.lastMessageLength 3, mapGetD c.lastMessageType 3,
          mapGetD c.lastMessageStreamId 3⟩ := by
        unfold parseHeader
        dsimp only
        rw [hhead]
        rfl
      have hac : applyCache c ⟨1, 3, 3, mapGetD c.lastTimestamp 3,
          mapGetD c.lastMessageLength 3, mapGetD c.lastMessageType 3,
          mapGetD c.lastMessageStreamId 3⟩ = c := rfl
      by_cases hcons : w < 1 + min (payload.length - a) C
      · -- not enough buffered bytes for the next chunk: the pass halts
        have hcs : coreStep c = .halt c := by
          unfold coreStep
          rw [hph]
          dsimp only
          rw [hac, hlk]
          dsimp only
          rw [hpcs, hblen]
          rw [if_pos (by omega)]
        have hstep : rtmpStep ⟨c, ack⟩ = .halt ⟨c, ack⟩ := by
          unfold rtmpStep
          dsimp only
          rw [hcs]
        rw [hstep]
        exact ⟨c, ack, [], [], rfl, hhs, Or.inl ⟨a, w, hpcs, ha0, haL, hlk, hbuf, hwlen,
          hcons, rfl, rfl⟩⟩
      · -- a whole chunk is available: it is consumed
        have hbtrw : 1 + min (payload.length - a) C ≤ w := by omega
        have hcd : ((c.buffer.drop 1).take (min (payload.length - a) C))
            = (payload.drop a).take (min (payload.length - a) C) := by
          obtain ⟨w1, rfl⟩ : ∃ w1, w = w1 + 1 := ⟨w - 1, by omega⟩
          rw [hbuf, hcont, List.take_succ_cons, List.drop_one, List.tail_cons,
            List.take_take, Nat.min_eq_left (by omega),
            List.take_append_of_le_length (by
              rw [List.length_take]
              omega),
            List.take_take, Nat.min_eq_left (by omega)]
        by_cases hdone : payload.length ≤ a + min (payload.length - a) C
        · -- final chunk: the message completes and is emitted
          have hbtr : min (payload.length - a) C = payload.length - a := by omega
          have htakeC : (payload.drop a).take C = payload.drop a :=
            List.take_of_length_le (by omega)
          have hdropC : (payload.drop a).drop C = [] :=
            List.drop_eq_nil_of_le (by omega)
          have hcontF : contAll C (payload.drop a) = 195 :: payload.drop a := by
            rw [hcont, htakeC, hdropC, contAll_nil, List.append_nil]
          have hlenF : (contAll C (payload.drop a)).length = 1 + (payload.length - a) := by
            rw [hcontF]
            simp only [List.length_cons]
            omega
          have hweq : w = 1 + (payload.length - a) := by omega
          have hcdF : (c.buffer.drop 1).take (payload.length - a) = payload.drop a := by
            have h := hcd
            rw [hbtr] at h
            rw [h]
            rw [show payload.length - a = (payload.drop a).length from by omega]
            exact List.take_length _
          have hfull : payload.take a ++ payload.drop a = payload := List.take_append_drop _ _
          have hnbF : c.buffer.drop (1 + (payload.length - a)) = [] := by
            rw [hbuf, List.drop_take]
            rw [show w - (1 + (payload.length - a)) = 0 from by omega]
            exact List.take_zero _
          have hcs : coreStep c = .cont
              {(handleCompleteMessage
                  {c with buffer := c.buffer.drop (1 + (payload.length - a)),
                          incompleteMessages := mapSet c.incompleteMessages 3
                            ⟨payload, payload.length, payload.length, typ, ts, sid⟩}
                  typ payload 3 sid).1 with
                incompleteMessages := mapDel (handleCompleteMessage
                  {c with buffer := c.buffer.drop (1 + (payload.length - a)),
                          incompleteMessages := mapSet c.incompleteMessages 3
                            ⟨payload, payload.length, payload.length, typ, ts, sid⟩}
                  typ payload 3 sid).1.incompleteMessages 3}
              [⟨typ, payload, 3, sid, ts⟩]
              (handleCompleteMessage
                  {c with buffer := c.buffer.drop (1 + (payload.length - a)),
                          incompleteMessages := mapSet c.incompleteMessages 3
                            ⟨payload, payload.length, payload.length, typ, ts, sid⟩}
                  typ payload 3 sid).2 := by
            unfold coreStep
            rw [hph]
            dsimp only
            rw [hac, hlk]
            dsimp only
            rw [hpcs, hblen, hbtr]
            rw [if_neg (by omega)]
            rw [hcdF]
            rw [show payload.take a ++ payload.drop a = payload from hfull]
            rw [if_pos (by omega)]
            rw [show a + (payload.length - a) = payload.length from by omega]
          obtain ⟨pcs4, sk4, hcm⟩ := handleCompleteMessage_core
            {c with buffer := c.buffer.drop (1 + (payload.length - a)),
                    incompleteMessages := mapSet c.incompleteMessages 3
                      ⟨payload, payload.length, payload.length, typ, ts, sid⟩}
            typ payload 3 sid
          have hstep : rtmpStep ⟨c, ack⟩ = .cont
              ⟨{(handleCompleteMessage
                  {c with buffer := c.buffer.drop (1 + (payload.length - a)),
                          incompleteMessages := mapSet c.incompleteMessages 3
                            ⟨payload, payload.length, payload.length, typ, ts, sid⟩}
                  typ payload 3 sid).1 with
                  incompleteMessages := mapDel (handleCompleteMessage
                    {c with buffer := c.buffer.drop (1 + (payload.length - a)),
                            incompleteMessages := mapSet c.incompleteMessages 3
                              ⟨payload, payload.length, payload.length, typ, ts, sid⟩}
                    typ payload 3 sid).1.incompleteMessages 3},
                (ackCheck ack c.windowAckSize).1⟩
              [⟨typ, payload, 3, sid, ts⟩]
              ((handleCompleteMessage
                  {c with buffer := c.buffer.drop (1 + (payload.length - a)),
                          incompleteMessages := mapSet c.incompleteMessages 3
                            ⟨payload, payload.length, payload.length, typ, ts, sid⟩}
                  typ payload 3 sid).2 ++ (ackCheck ack c.windowAckSize).2) := by
            unfold rtmpStep
            dsimp only
            rw [hcs]
            dsimp only
            rw [hcm]
          rw [hstep]
          dsimp only
          have hbuf4 : (handleCompleteMessage
              {c with buffer := c.buffer.drop (1 + (payload.length - a)),
                      incompleteMessages := mapSet c.incompleteMessages 3
                        ⟨payload, payload.length, payload.length, typ, ts, sid⟩}
              typ payload 3 sid).1.buffer = [] := by
            rw [handleCompleteMessage_buffer]
            exact hnbF
          rw [if_neg (by
            rw [hbuf4]
            simp only [List.length_nil, beq_iff_eq]
            rw [hblen]
            omega)]
          obtain ⟨f1, rfl⟩ : ∃ g, f = g + 1 := ⟨f - 1, by omega⟩
          rw [rtmpLoop]
          rw [if_pos (by
            show (_ : Conn).core.buffer.isEmpty = true
            dsimp only
            rw [hbuf4]
            rfl)]
          refine ⟨_, _, _, _, rfl, ?_, Or.inr ⟨by simp, ?_, ?_⟩⟩
          · dsimp only
            rw [handleCompleteMessage_hs]
            exact hhs
          · dsimp only
            exact hbuf4
          · rw [hcontF]
            apply List.drop_eq_nil_of_le
            simp only [List.length_cons]
            omega
        · -- a middle chunk: the partial grows by exactly C payload bytes
          have hbtrC : min (payload.length - a) C = C := by omega
          have hCra : C < payload.length - a := by omega
          have hcdC : (c.buffer.drop 1).take C = (payload.drop a).take C := by
            have h := hcd
            rw [hbtrC] at h
            exact h
          have hdd : (payload.drop a).drop C = payload.drop (a + C) := by
            rw [List.drop_drop]
          have hdropIn : (contAll C (payload.drop a)).drop (1 + C)
              = contAll C (payload.drop (a + C)) := by
            rw [hcont, Nat.add_comm 1 C, List.drop_succ_cons]
            rw [List.drop_left' (by rw [List.length_take]; omega), hdd]
          have hnbC : c.buffer.drop (1 + C)
              = (contAll C (payload.drop (a + C))).take (w - (1 + C)) := by
            rw [hbuf, List.drop_take, hdropIn]
          have htadd : payload.take a ++ (payload.drop a).take C = payload.take (a + C) :=
            (List.take_add _ _ _).symm
          have hcs : coreStep c = .cont
              {c with buffer := c.buffer.drop (1 + C),
                      incompleteMessages := mapSet c.incompleteMessages 3
                        ⟨payload.take (a + C), a + C, payload.length, typ, ts, sid⟩}
              [] [] := by
            unfold coreStep
            rw [hph]
            dsimp only
            rw [hac, hlk]
            dsimp only
            rw [hpcs, hblen, hbtrC]
            rw [if_neg (by omega)]
            rw [hcdC, htadd]
            rw [if_neg (by omega)]
          have hstep : rtmpStep ⟨c, ack⟩ = .cont
              ⟨{c with buffer := c.buffer.drop (1 + C),
                       incompleteMessages := mapSet c.incompleteMessages 3
                         ⟨payload.take (a + C), a + C, payload.length, typ, ts, sid⟩},
                (ackCheck ack c.windowAckSize).1⟩
              [] ([] ++ (ackCheck ack c.windowAckSize).2) := by
            unfold rtmpStep
            dsimp only
            rw [hcs]
          rw [hstep]
          dsimp only
          rw [if_neg (by
            rw [List.length_drop, hblen]
            simp only [beq_iff_eq]
            omega)]
          have hrec := ih
            {c with buffer := c.buffer.drop (1 + C),
                    incompleteMessages := mapSet c.incompleteMessages 3
                      ⟨payload.take (a + C), a + C, payload.length, typ, ts, sid⟩}
            (ackCheck ack c.windowAckSize).1 (a + C) (w - (1 + C))
            hhs hpcs (by omega) (by omega)
            (lookup_mapSet_self _ _ _)
            hnbC
            (by
              rw [hcont] at hwlen
              simp only [List.length_cons, List.length_append, List.length_take] at hwlen
              rw [hdd] at hwlen
              omega)
            (by
              show (c.buffer.drop (1 + C)).length + 1 ≤ f
              rw [List.length_drop, hblen]
              omega)
          obtain ⟨c2, ack2, ms2, effs2, hrec2, hhs2, hph2⟩ := hrec
          rw [hrec2]
          have hdroptie : (contAll C (payload.drop a)).drop w
              = (contAll C (payload.drop (a + C))).drop (w - (1 + C)) := by
            rw [show w = 1 + C + (w - (1 + C)) from by omega]
            rw [← List.drop_drop, hdropIn]
            congr 1
            omega
          refine ⟨c2, ack2, [] ++ ms2, ([] ++ (ackCheck ack c.windowAckSize).2) ++ effs2,
            rfl, hhs2, ?_⟩
          rcases hph2 with ⟨a2, w2, hp1, hp2, hp3, hp4, hp5, hp6, hp7, hp8, hp9⟩ | ⟨hm, hb, ht⟩
          · exact Or.inl ⟨a2, w2, hp1, hp2, hp3, hp4, hp5, hp6, hp7,
              by rw [hp8, hdroptie], by rw [hp9]; rfl⟩
          · exact Or.inr ⟨by rw [hm]; rfl, hb, by rw [hdroptie, ht]⟩

theorem parseHeader_fmt0_short (c : Core) (h3 : c.buffer.head? = some 3)
    (hlen : c.buffer.length < 12) : parseHeader c = none := by
  unfold parseHeader
  dsimp only
  rw [h3]
  dsimp only
  rw [if_neg (by decide), if_neg (by decide), if_neg (by decide)]
  dsimp only
  rw [if_pos (by decide), if_pos (by omega)]

theorem parseHeader_fmt0 (c : Core) (h3 : c.buffer.head? = some 3)
    (hlen : 12 ≤ c.buffer.length) :
    parseHeader c = some ⟨12, 3, 0, read24BE c.buffer 1, read24BE c.buffer 4,
      c.buffer.getD 7 0, read32LE c.buffer 8⟩ := by
  unfold parseHeader
  dsimp only
  rw [h3]
  dsimp only
  rw [if_neg (by decide), if_neg (by decide), if_neg (by decide)]
  dsimp only
  rw [if_pos (by decide), if_neg (by omega)]

/-- First-chunk analysis of the loop (C1): from a clean state whose buffer is
a prefix of the split message, the loop halts (header or first chunk still
incomplete), creates the partial message and continues through the
continuation chunks, or completes a single-chunk message outright. -/
theorem c1_loopA (C typ ts sid : Nat) (payload : List Nat) (hC : 1 ≤ C)
    (hL : payload.length < 16777216) (hts : ts < 16777216) (hsid : sid < 4294967296) :
    ∀ (fuel : Nat) (c : Core) (ack : AckSt) (n : Nat),
      c.hs = .handshakeDone →
      c.peerChunkSize = C →
      c.incompleteMessages.lookup 3 = none →
      c.buffer = (splitMessage C ts typ sid payload).take n →
      n ≤ (splitMessage C ts typ sid payload).length →
      c.buffer.length + 1 ≤ fuel →
      ∃ c2 ack2 ms effs, rtmpLoop fuel ⟨c, ack⟩ = (⟨c2, ack2⟩, ms, effs) ∧
        c2.hs = .handshakeDone ∧
        ((c2.peerChunkSize = C ∧
            c2.incompleteMessages.lookup 3 = none ∧
            c2.buffer = (splitMessage C ts typ sid payload).take n ∧
            n < 12 + min payload.length C ∧
            ms = [])
         ∨ (∃ a2 w2,
            c2.peerChunkSize = C ∧ 0 < a2 ∧ a2 < payload.length ∧
            c2.incompleteMessages.lookup 3
              = some ⟨payload.take a2, a2, payload.length, typ, ts, sid⟩ ∧
            c2.buffer = (contAll C (payload.drop a2)).take w2 ∧
            w2 ≤ (contAll C (payload.drop a2)).length ∧
            w2 < 1 + min (payload.length - a2) C ∧
            (contAll C (payload.drop a2)).drop w2
              = (splitMessage C ts typ sid payload).drop n ∧
            ms = [])
         ∨ (ms = [⟨typ, payload, 3, sid, ts⟩] ∧ c2.buffer = [] ∧
            (splitMessage C ts typ sid payload).drop n = [])) := by
  intro fuel c ack n hhs hpcs hinc hbuf hnS hfuel
  obtain ⟨f, rfl⟩ : ∃ f, fuel = f + 1 := ⟨fuel - 1, by omega⟩
  have hlenS : (splitMessage C ts typ sid payload).length
      = 12 + min payload.length C + (contAll C (payload.drop C)).length := by
    show (mkHdr0 ts payload.length typ sid
      ++ (payload.take C ++ contAll C (payload.drop C))).length = _
    simp only [List.length_append, mkHdr0_length, List.length_take]
    omega
  have hblen : c.buffer.length = n := by
    rw [hbuf, List.length_take]
    omega
  rw [rtmpLoop]
  by_cases hn0 : n = 0
  · subst hn0
    rw [if_pos (by show c.buffer.isEmpty = true; rw [hbuf]; rfl)]
    exact ⟨c, ack, [], [], rfl, hhs, Or.inl ⟨hpcs, hinc, hbuf, by omega, rfl⟩⟩
  · rw [if_neg (by
      show ¬(c.buffer.isEmpty = true)
      intro hie
      have hnil : c.buffer = [] := List.isEmpty_iff.mp hie
      rw [hnil] at hblen
      simp only [List.length_nil] at hblen
      omega)]
    have hhead : c.buffer.head? = some 3 := by
      rw [hbuf]
      apply head?_take _ _ (by omega)
      rfl
    by_cases hn12 : n < 12
    · have hph := parseHeader_fmt0_short c hhead (by omega)
      have hcs : coreStep c = .halt c := by
        unfold coreStep
        rw [hph]
      have hstep : rtmpStep ⟨c, ack⟩ = .halt ⟨c, ack⟩ := by
        unfold rtmpStep
        dsimp only
        rw [hcs]
      rw [hstep]
      exact ⟨c, ack, [], [], rfl, hhs, Or.inl ⟨hpcs, hinc, hbuf, by omega, rfl⟩⟩
    · have hph0 := parseHeader_fmt0 c hhead (by omega)
      have hr1 : read24BE c.buffer 1 = ts := by
        rw [hbuf, read24_take _ _ _ (by omega)]
        exact hdr_read_ts _ _ _ _ _ hts
      have hr4 : read24BE c.buffer 4 = payload.length := by
        rw [hbuf, read24_take _ _ _ (by omega)]
        exact hdr_read_len _ _ _ _ _ hL
      have hr7 : c.buffer.getD 7 0 = typ := by
        rw [hbuf, getD_take _ _ _ _ (by omega)]
        exact hdr_getD7 _ _ _ _ _
      have hr8 : read32LE c.buffer 8 = sid := by
        rw [hbuf, read32LE_take _ _ _ (by omega)]
        exact hdr_read_sid _ _ _ _ _ hsid
      have hph : parseHeader c = some ⟨12, 3, 0, ts, payload.length, typ, sid⟩ := by
        rw [hph0, hr1, hr4, hr7, hr8]
      have hac : applyCache c ⟨12, 3, 0, ts, payload.length, typ, sid⟩
          = {c with lastTimestamp := mapSet c.lastTimestamp 3 ts,
                    lastMessageLength := mapSet c.lastMessageLength 3 payload.length,
                    lastMessageType := mapSet c.lastMessageType 3 typ,
                    lastMessageStreamId := mapSet c.lastMessageStreamId 3 sid} := rfl
      have hSd12 : (splitMessage C ts typ sid payload).drop 12
          = payload.take C ++ contAll C (payload.drop C) := by
        show (mkHdr0 ts payload.length typ sid
          ++ (payload.take C ++ contAll C (payload.drop C))).drop 12 = _
        exact List.drop_left' (by simp)
      by_cases havail : n < 12 + min payload.length C
      · -- header parsed but first chunk incomplete: halt with caches applied
        have hcs : coreStep c = .halt
            {c with lastTimestamp := mapSet c.lastTimestamp 3 ts,
                    lastMessageLength := mapSet c.lastMessageLength 3 payload.length,
                    lastMessageType := mapSet c.lastMessageType 3 typ,
                    lastMessageStreamId := mapSet c.lastMessageStreamId 3 sid} := by
          unfold coreStep
          rw [hph]
          dsimp only
          rw [hac]
          dsimp only
          rw [hinc]
          dsimp only
          rw [hpcs, hblen]
          rw [if_pos havail]
        have hstep : rtmpStep ⟨c, ack⟩ = .halt
            ⟨{c with lastTimestamp := mapSet c.lastTimestamp 3 ts,
                     lastMessageLength := mapSet c.lastMessageLength 3 payload.length,
                     lastMessageType := mapSet c.lastMessageType 3 typ,
                     lastMessageStreamId := mapSet c.lastMessageStreamId 3 sid}, ack⟩ := by
          unfold rtmpStep
          dsimp only
          rw [hcs]
        rw [hstep]
        exact ⟨_, ack, [], [], rfl, hhs, Or.inl ⟨hpcs, hinc, hbuf, havail, rfl⟩⟩
      · have hcd : (c.buffer.drop 12).take (min payload.length C)
            = payload.take (min payload.length C) := by
          rw [hbuf, List.drop_take, List.take_take, Nat.min_eq_left (by omega), hSd12,
            List.take_append_of_le_length (by rw [List.length_take]; omega),
            List.take_take, Nat.min_eq_left (by omega)]
        by_cases hLC : payload.length ≤ C
        · -- single-chunk message: completes in this very pass
          have hminL : min payload.length C = payload.length := by omega
          have hcdL : (c.buffer.drop 12).take (min payload.length C) = payload := by
            rw [hcd, hminL, List.take_length]
          have hdnil : payload.drop C = [] := List.drop_eq_nil_of_le (by omega)
          have hSlen2 : (splitMessage C ts typ sid payload).length = 12 + payload.length := by
            rw [hlenS, hdnil, contAll_nil]
            simp only [List.length_nil]
            omega
          have hneq : n = 12 + payload.length := by omega
          have hnb : c.buffer.drop (12 + min payload.length C) = [] :=
            List.drop_eq_nil_of_le (by rw [hblen]; omega)
          have hcs : coreStep c = .cont
              (handleCompleteMessage
                {c with lastTimestamp := mapSet c.lastTimestamp 3 ts,
                        lastMessageLength := mapSet c.lastMessageLength 3 payload.length,
                        lastMessageType := mapSet c.lastMessageType 3 typ,
                        lastMessageStreamId := mapSet c.lastMessageStreamId 3 sid,
                        buffer := c.buffer.drop (12 + min payload.length C)}
                typ payload 3 sid).1
              [⟨typ, payload, 3, sid, ts⟩]
              (handleCompleteMessage
                {c with lastTimestamp := mapSet c.lastTimestamp 3 ts,
                        lastMessageLength := mapSet c.lastMessageLength 3 payload.length,
                        lastMessageType := mapSet c.lastMessageType 3 typ,
                        lastMessageStreamId := mapSet c.lastMessageStreamId 3 sid,
                        buffer := c.buffer.drop (12 + min payload.length C)}
                typ payload 3 sid).2 := by
            unfold coreStep
            rw [hph]
            dsimp only
            rw [hac]
            dsimp only
            rw [hinc]
            dsimp only
            rw [hpcs, hblen]
            rw [if_neg (by omega)]
            rw [hcdL]
            rw [if_pos (by omega)]
          obtain ⟨pcs4, sk4, hcm⟩ := handleCompleteMessage_core
            {c with lastTimestamp := mapSet c.lastTimestamp 3 ts,
                    lastMessageLength := mapSet c.lastMessageLength 3 payload.length,
                    lastMessageType := mapSet c.lastMessageType 3 typ,
                    lastMessageStreamId := mapSet c.lastMessageStreamId 3 sid,
                    buffer := c.buffer.drop (12 + min payload.length C)}
            typ payload 3 sid
          have hbuf4 : (handleCompleteMessage
              {c with lastTimestamp := mapSet c.lastTimestamp 3 ts,
                      lastMessageLength := mapSet c.lastMessageLength 3 payload.length,
                      lastMessageType := mapSet c.lastMessageType 3 typ,
                      lastMessageStreamId := mapSet c.lastMessageStreamId 3 sid,
                      buffer := c.buffer.drop (12 + min payload.length C)}
              typ payload 3 sid).1.buffer = [] := by
            rw [handleCompleteMessage_buffer]
            exact hnb
          have hstep : rtmpStep ⟨c, ack⟩ = .cont
              ⟨(handleCompleteMessage
                  {c with lastTimestamp := mapSet c.lastTimestamp 3 ts,
                          lastMessageLength := mapSet c.lastMessageLength 3 payload.length,
                          lastMessageType := mapSet c.lastMessageType 3 typ,
                          lastMessageStreamId := mapSet c.lastMessageStreamId 3 sid,
                          buffer := c.buffer.drop (12 + min payload.length C)}
                  typ payload 3 sid).1,
                (ackCheck ack c.windowAckSize).1⟩
              [⟨typ, payload, 3, sid, ts⟩]
              ((handleCompleteMessage
                  {c with lastTimestamp := mapSet c.lastTimestamp 3 ts,
                          lastMessageLength := mapSet c.lastMessageLength 3 payload.length,
                          lastMessageType := mapSet c.lastMessageType 3 typ,
                          lastMessageStreamId := mapSet c.lastMessageStreamId 3 sid,
                          buffer := c.buffer.drop (12 + min payload.length C)}
                  typ payload 3 sid).2 ++ (ackCheck ack c.windowAckSize).2) := by
            unfold rtmpStep
            dsimp only
            rw [hcs]
            dsimp only
            rw [hcm]
          rw [hstep]
          dsimp only
          rw [if_neg (by
            rw [hbuf4]
            simp only [List.length_nil, beq_iff_eq]
            rw [hblen]
            omega)]
          obtain ⟨f1, rfl⟩ : ∃ g, f = g + 1 := ⟨f - 1, by omega⟩
          rw [rtmpLoop]
          rw [if_pos (by
            show (_ : Conn).core.buffer.isEmpty = true
            dsimp only
            rw [hbuf4]
            rfl)]
          refine ⟨_, _, _, _, rfl, ?_, Or.inr (Or.inr ⟨by simp, hbuf4, ?_⟩)⟩
          · rw [handleCompleteMessage_hs]
            exact hhs
          · exact List.drop_eq_nil_of_le (by omega)
        · -- multi-chunk message: the partial is created, loopB finishes the job
          have hminC : min payload.length C = C := by omega
          have hcdC : (c.buffer.drop 12).take C = payload.take C := by
            have h := hcd
            rw [hminC] at h
            exact h
          have hSd12C : (splitMessage C ts typ sid payload).drop (12 + C)
              = contAll C (payload.drop C) := by
            show (mkHdr0 ts payload.length typ sid
              ++ (payload.take C ++ contAll C (payload.drop C))).drop (12 + C) = _
            rw [← List.append_assoc]
            exact List.drop_left' (by
              simp only [List.length_append, mkHdr0_length, List.length_take]
              omega)
          have hnbC : c.buffer.drop (12 + C)
              = (contAll C (payload.drop C)).take (n - (12 + C)) := by
            rw [hbuf, List.drop_take, hSd12C]
          have hcs : coreStep c = .cont
              {c with lastTimestamp := mapSet c.lastTimestamp 3 ts,
                      lastMessageLength := mapSet c.lastMessageLength 3 payload.length,
                      lastMessageType := mapSet c.lastMessageType 3 typ,
                      lastMessageStreamId := mapSet c.lastMessageStreamId 3 sid,
                      buffer := c.buffer.drop (12 + C),
                      incompleteMessages := mapSet c.incompleteMessages 3
                        ⟨payload.take C, C, payload.length, typ, ts, sid⟩}
              [] [] := by
            unfold coreStep
            rw [hph]
            dsimp only
            rw [hac]
            dsimp only
            rw [hinc]
            dsimp only
            rw [hpcs, hblen, hminC]
            rw [if_neg (by omega)]
            rw [hcdC]
            rw [if_neg (by omega)]
          have hstep : rtmpStep ⟨c, ack⟩ = .cont
              ⟨{c with lastTimestamp := mapSet c.lastTimestamp 3 ts,
                       lastMessageLength := mapSet c.lastMessageLength 3 payload.length,
                       lastMessageType := mapSet c.lastMessageType 3 typ,
                       lastMessageStreamId := mapSet c.lastMessageStreamId 3 sid,
                       buffer := c.buffer.drop (12 + C),
                       incompleteMessages := mapSet c.incompleteMessages 3
                         ⟨payload.take C, C, payload.length, typ, ts, sid⟩},
                (ackCheck ack c.windowAckSize).1⟩
              [] ([] ++ (ackCheck ack c.windowAckSize).2) := by
            unfold rtmpStep
            dsimp only
            rw [hcs]
          rw [hstep]
          dsimp only
          rw [if_neg (by
            rw [List.length_drop, hblen]
            simp only [beq_iff_eq]
            omega)]
          have hrec := c1_loopB C typ ts sid payload hC f
            {c with lastTimestamp := mapSet c.lastTimestamp 3 ts,
                    lastMessageLength := mapSet c.lastMessageLength 3 payload.length,
                    lastMessageType := mapSet c.lastMessageType 3 typ,
                    lastMessageStreamId := mapSet c.lastMessageStreamId 3 sid,
                    buffer := c.buffer.drop (12 + C),
                    incompleteMessages := mapSet c.incompleteMessages 3
                      ⟨payload.take C, C, payload.length, typ, ts, sid⟩}
            (ackCheck ack c.windowAckSize).1 C (n - (12 + C))
            hhs hpcs (by omega) (by omega)
            (lookup_mapSet_self _ _ _)
            hnbC
            (by omega)
            (by
              show (c.buffer.drop (12 + C)).length + 1 ≤ f
              rw [List.length_drop, hblen]
              omega)
          obtain ⟨c2, ack2, ms2, effs2, hrec2, hhs2, hph2⟩ := hrec
          rw [hrec2]
          have hSdropn : (splitMessage C ts typ sid payload).drop n
              = (contAll C (payload.drop C)).drop (n - (12 + C)) := by
            rw [show n = (12 + C) + (n - (12 + C)) from by omega, ← List.drop_drop, hSd12C]
            congr 1
            omega
          refine ⟨c2, ack2, [] ++ ms2, _, rfl, hhs2, ?_⟩
          rcases hph2 with ⟨a2, w2, hp1, hp2, hp3, hp4, hp5, hp6, hp7, hp8, hp9⟩ |
            ⟨hm, hb, ht⟩
          · exact Or.inr (Or.inl ⟨a2, w2, hp1, hp2, hp3, hp4, hp5, hp6, hp7,
              by rw [hp8, hSdropn], by rw [hp9]; rfl⟩)
          · exact Or.inr (Or.inr ⟨by rw [hm]; rfl, hb, by rw [hSdropn, ht]⟩)

/-- Feeding the split message across arbitrary deliveries (C1): as long as the
connection is in one of the two in-progress phases, the concatenated message
output of all remaining deliveries is exactly the one reassembled message. -/
theorem c1_feed (C typ ts sid : Nat) (payload : List Nat) (hC : 1 ≤ C)
    (hL : payload.length < 16777216) (hts : ts < 16777216) (hsid : sid < 4294967296)
    (t0 : Nat) (r0 : List Nat) :
    ∀ (parts : List (List Nat)) (c : Core) (ack : AckSt) (gone : Bool),
      c.hs = .handshakeDone →
      (gone = true → c.buffer = [] ∧ parts.flatten = []) →
      (gone = false →
        ((∃ n, c.peerChunkSize = C ∧ c.incompleteMessages.lookup 3 = none ∧
          c.buffer = (splitMessage C ts typ sid payload).take n ∧
          n < 12 + min payload.length C ∧
          n ≤ (splitMessage C ts typ sid payload).length ∧
          parts.flatten = (splitMessage C ts typ sid payload).drop n)
         ∨ (∃ a w, c.peerChunkSize = C ∧ 0 < a ∧ a < payload.length ∧
          c.incompleteMessages.lookup 3
            = some ⟨payload.take a, a, payload.length, typ, ts, sid⟩ ∧
          c.buffer = (contAll C (payload.drop a)).take w ∧
          w ≤ (contAll C (payload.drop a)).length ∧
          w < 1 + min (payload.length - a) C ∧
          parts.flatten = (contAll C (payload.drop a)).drop w))) →
      (feedAll t0 r0 ⟨c, ack⟩ parts).2.1
        = if gone then [] else [⟨typ, payload, 3, sid, ts⟩] := by
  intro parts
  induction parts with
  | nil =>
    intro c ack gone hhs hinvT hinvF
    cases gone with
    | true => rfl
    | false =>
      exfalso
      rcases hinvF rfl with ⟨n, hp, hi, hb, hlt, hle, hU⟩ | ⟨a, w, hp, ha0, haL, hi, hb,
        hwle, hwlt, hU⟩
      · have hSlen : 12 + min payload.length C
            ≤ (splitMessage C ts typ sid payload).length := by
          show _ ≤ (mkHdr0 ts payload.length typ sid
            ++ (payload.take C ++ contAll C (payload.drop C))).length
          simp only [List.length_append, mkHdr0_length, List.length_take]
          omega
        have hdl := congrArg List.length hU
        simp only [List.flatten_nil, List.length_nil, List.length_drop] at hdl
        omega
      · have hra : payload.drop a ≠ [] := by
          intro h
          have h2 := List.length_drop a payload
          rw [h] at h2
          simp only [List.length_nil] at h2
          omega
        have hlb := contAll_len_lb C hC (payload.drop a).length (payload.drop a)
          (le_refl _) hra
        have hdl := congrArg List.length hU
        simp only [List.flatten_nil, List.length_nil, List.length_drop] at hdl
        rw [List.length_drop] at hlb
        omega
  | cons d rest ih =>
    intro c ack gone hhs hinvT hinvF
    unfold feedAll
    dsimp only
    rw [handleData_done t0 r0 ⟨c, ack⟩ d hhs]
    unfold processRTMPMessages
    dsimp only
    cases gone with
    | true =>
      obtain ⟨hbe, hUe⟩ := hinvT rfl
      simp only [List.flatten_cons] at hUe
      obtain ⟨hd, hr⟩ := List.append_eq_nil.mp hUe
      have hbd : c.buffer ++ d = [] := by rw [hbe, hd]; rfl
      have hnil := processRTMP_nil
        ⟨{c with buffer := c.buffer ++ d},
         {ack with bytesReceived := ack.bytesReceived + d.length}⟩ hbd
      unfold processRTMPMessages at hnil
      rw [hnil]
      dsimp only
      have ihres := ih {c with buffer := c.buffer ++ d}
        {ack with bytesReceived := ack.bytesReceived + d.length} true hhs
        (fun _ => ⟨hbd, hr⟩) (fun h => absurd h (by simp))
      rw [ihres]
      rfl
    | false =>
      rcases hinvF rfl with ⟨n, hp, hi, hb, hlt, hle, hU⟩ | ⟨a, w, hp, ha0, haL, hi, hb,
        hwle, hwlt, hU⟩
      · -- phase A delivery
        simp only [List.flatten_cons] at hU
        have hdtake : d = ((splitMessage C ts typ sid payload).drop n).take d.length := by
          rw [← hU]
          exact (List.take_left d rest.flatten).symm
        have hbufd : c.buffer ++ d = (splitMessage C ts typ sid payload).take
            (n + d.length) := by
          rw [hb, List.take_add]
          exact congrArg (fun x => (splitMessage C ts typ sid payload).take n ++ x) hdtake
        have hrestU : rest.flatten = (splitMessage C ts typ sid payload).drop
            (n + d.length) := by
          have h2 : ((splitMessage C ts typ sid payload).drop n).drop d.length
              = rest.flatten := by
            rw [← hU, List.drop_left]
          rw [← h2, List.drop_drop]
        have hnd : n + d.length ≤ (splitMessage C ts typ sid payload).length := by
          have h3 := congrArg List.length hU
          simp only [List.length_append, List.length_drop] at h3
          omega
        have hrec := c1_loopA C typ ts sid payload hC hL hts hsid
          ((c.buffer ++ d).length + 1) {c with buffer := c.buffer ++ d}
          {ack with bytesReceived := ack.bytesReceived + d.length} (n + d.length)
          hhs hp hi hbufd hnd (le_refl _)
        obtain ⟨c2, ack2, ms, effs, hrl, hhs2, hdisj⟩ := hrec
        rw [hrl]
        dsimp only
        rcases hdisj with ⟨hp2, hi2, hb2, hlt2, hms⟩ |
          ⟨a2, w2, hq1, hq2, hq3, hq4, hq5, hq6, hq7, hq8, hq9⟩ | ⟨hms, hb2, hdrop⟩
        · have ihres := ih c2 ack2 false hhs2 (fun h => absurd h (by simp))
            (fun _ => Or.inl ⟨n + d.length, hp2, hi2, hb2, hlt2, hnd, hrestU⟩)
          rw [ihres, hms]
          rfl
        · have ihres := ih c2 ack2 false hhs2 (fun h => absurd h (by simp))
            (fun _ => Or.inr ⟨a2, w2, hq1, hq2, hq3, hq4, hq5, hq6, hq7,
              by rw [hrestU, ← hq8]⟩)
          rw [ihres, hq9]
          rfl
        · have ihres := ih c2 ack2 true hhs2
            (fun _ => ⟨hb2, by rw [hrestU, hdrop]⟩) (fun h => absurd h (by simp))
          rw [ihres, hms]
          rfl
      · -- phase B delivery
        simp only [List.flatten_cons] at hU
        have hdtake : d = ((contAll C (payload.drop a)).drop w).take d.length := by
          rw [← hU]
          exact (List.take_left d rest.flatten).symm
        have hbufd : c.buffer ++ d = (contAll C (payload.drop a)).take (w + d.length) := by
          rw [hb, List.take_add]
          exact congrArg (fun x => (contAll C (payload.drop a)).take w ++ x) hdtake
        have hrestU : rest.flatten = (contAll C (payload.drop a)).drop (w + d.length) := by
          have h2 : ((contAll C (payload.drop a)).drop w).drop d.length = rest.flatten := by
            rw [← hU, List.drop_left]
          rw [← h2, List.drop_drop]
        have hnd : w + d.length ≤ (contAll C (payload.drop a)).length := by
          have h3 := congrArg List.length hU
          simp only [List.length_append, List.length_drop] at h3
          omega
        have hrec := c1_loopB C typ ts sid payload hC
          ((c.buffer ++ d).length + 1) {c with buffer := c.buffer ++ d}
          {ack with bytesReceived := ack.bytesReceived + d.length} a (w + d.length)
          hhs hp ha0 haL hi hbufd hnd (le_refl _)
        obtain ⟨c2, ack2, ms, effs, hrl, hhs2, hdisj⟩ := hrec
        rw [hrl]
        dsimp only
        rcases hdisj with ⟨a2, w2, hq1, hq2, hq3, hq4, hq5, hq6, hq7, hq8, hq9⟩ |
          ⟨hms, hb2, hdrop⟩
        · have ihres := ih c2 ack2 false hhs2 (fun h => absurd h (by simp))
            (fun _ => Or.inr ⟨a2, w2, hq1, hq2, hq3, hq4, hq5, hq6, hq7,
              by rw [hrestU, ← hq8]⟩)
          rw [ihres, hq9]
          rfl
        · have ihres := ih c2 ack2 true hhs2
            (fun _ => ⟨hb2, by rw [hrestU, hdrop]⟩) (fun h => absurd h (by simp))
          rw [ihres, hms]
          rfl

/-- C1: Chunking invariant. For every message payload (declared length
`payload.length` below `2^24`, timestamp below `2^24`, type a byte, stream id
below `2^32`) and every negotiated peer chunk size `C ≥ 1`, splitting the
message into a format-0 header plus format-3 continuation chunks of at most
`C` payload bytes and feeding the resulting byte stream to the reassembler in
arbitrary-sized increments (including one byte at a time) yields exactly one
reassembled Message, whose payload, type, timestamp and stream id equal those
declared in the format-0 header. -/
theorem c1_chunking (C typ ts sid t0 : Nat) (r0 : List Nat) (payload : List Nat)
    (parts : List (List Nat)) (s : Conn)
    (hC : 1 ≤ C) (hL : payload.length < 16777216) (hts : ts < 16777216)
    (htyp : typ < 256) (hsid : sid < 4294967296)
    (hhs : s.core.hs = .handshakeDone)
    (hbuf : s.core.buffer = [])
    (hpcs : s.core.peerChunkSize = C)
    (hinc : s.core.incompleteMessages.lookup 3 = none)
    (hparts : parts.flatten = splitMessage C ts typ sid payload) :
    (feedAll t0 r0 s parts).2.1 = [⟨typ, payload, 3, sid, ts⟩] := by
  obtain ⟨c, ack⟩ := s
  have h := c1_feed C typ ts sid payload hC hL hts hsid t0 r0 parts c ack false hhs
    (fun h => absurd h (by simp))
    (fun _ => Or.inl ⟨0, hpcs, hinc, by rw [hbuf]; rfl, by omega, by omega,
      by rw [hparts]; rfl⟩)
  rw [h]
  rfl

/-- Witness: a 3-byte message split at chunk size 2 (two chunks) and fed one
byte at a time reassembles to exactly the original message. -/
theorem c1_chunking_witness :
    (feedAll 0 [] ⟨{initCore with hs := .handshakeDone, peerChunkSize := 2}, ⟨0, 0⟩⟩
      ((splitMessage 2 7 8 9 [10, 20, 30]).map (fun b => [b]))).2.1
      = [⟨8, [10, 20, 30], 3, 9, 7⟩] :=
  c1_chunking 2 8 7 9 0 [] [10, 20, 30]
    ((splitMessage 2 7 8 9 [10, 20, 30]).map (fun b => [b]))
    ⟨{initCore with hs := .handshakeDone, peerChunkSize := 2}, ⟨0, 0⟩⟩
    (by decide) (by decide) (by decide) (by decide) (by decide)
    rfl rfl rfl rfl (by decide)

end RTMPCore
